import Mathlib

/-!
Shallow embedding of the q-deck quantum circuit editor core
(`params.go`, `quantum.go`, and the `CircuitDAG` model / QASM codec),
together with theorems settling the frozen claims about it.

Numeric modelling conventions:
* On the codec/parameter side every `float64` is modelled as an exact
  rational (`ℚ`); the float64 constant `math.Pi` is modelled by its exact
  rational value `piQ`.  Float rounding (at most ~1e-16 here) is far below
  the 1e-10 tolerance the code works with, and exact rational arithmetic
  keeps every definition computable so concrete runs can be checked by
  `decide`.  `strconv.ParseFloat` is modelled for finite decimal literals
  (the special forms `Inf`/`NaN`/hex floats never occur in this protocol).
* On the simulator side amplitudes are exact complex numbers (`ℂ`) and
  parameters exact reals, as the gate transforms are exact 2×2 unitaries.
-/

namespace QDeck

/-- Exact rational value of the IEEE-754 float64 constant `math.Pi`. -/
def piQ : ℚ := 884279719003555 / 281474976710656

/-- ASCII digit, the regexp class `\d`. -/
def isDigitChar (c : Char) : Bool := '0' ≤ c && c ≤ '9'

/-- The regexp class `\w` (letters, digits, underscore). -/
def isWordChar (c : Char) : Bool := c.isAlpha || isDigitChar c || c = '_'

/-- The regexp class `\s` (RE2: space, tab, newline, form feed, carriage return). -/
def isSpaceChar (c : Char) : Bool :=
  c = ' ' || c = '\t' || c = '\n' || c = '\x0c' || c = '\r'

/-- Whitespace as trimmed by Go `strings.TrimSpace` (ASCII part; the
non-ASCII Unicode spaces never occur in this protocol). -/
def isGoSpace (c : Char) : Bool :=
  c = ' ' || c = '\t' || c = '\n' || c = '\x0b' || c = '\x0c' || c = '\r'

/-- `strings.TrimSpace` on a character list. -/
def trimChars (cs : List Char) : List Char :=
  ((cs.dropWhile isGoSpace).reverse.dropWhile isGoSpace).reverse

/-- Decimal digits to a natural number (the digit strings come from `\d+`
groups, as consumed by `strconv.Atoi`). -/
def natOfDigits (ds : List Char) : ℕ :=
  ds.foldl (fun acc c => 10 * acc + (c.toNat - '0'.toNat)) 0

/-- Split a list at a predicate boundary: the longest prefix satisfying `p`
and the rest (greedy matching of a character class). -/
def takeWhileSplit (p : Char → Bool) (cs : List Char) : List Char × List Char :=
  (cs.takeWhile p, cs.dropWhile p)

/-- `strconv.ParseFloat` on a full token, for finite decimal literals:
optional sign, digits with at most one dot (at least one digit), optional
exponent.  The value is kept exact in `ℚ` instead of being rounded to the
nearest float64. -/
def parseFloat (cs : List Char) : Option ℚ :=
  let signed : ℚ × List Char :=
    match cs with
    | '-' :: rest => (-1, rest)
    | '+' :: rest => (1, rest)
    | _ => (1, cs)
  let sign := signed.1
  let (intPart, cs1) := takeWhileSplit isDigitChar signed.2
  let fracSplit : List Char × List Char :=
    match cs1 with
    | '.' :: rest => takeWhileSplit isDigitChar rest
    | _ => ([], cs1)
  let fracPart := fracSplit.1
  if intPart = [] ∧ fracPart = [] then none
  else
    let mant : ℚ := (natOfDigits intPart : ℚ) +
      (natOfDigits fracPart : ℚ) / (10 : ℚ) ^ fracPart.length
    match fracSplit.2 with
    | [] => some (sign * mant)
    | e :: rest =>
      if e = 'e' ∨ e = 'E' then
        let esigned : Bool × List Char :=
          match rest with
          | '-' :: r => (true, r)
          | '+' :: r => (false, r)
          | _ => (false, rest)
        let (eds, rest2) := takeWhileSplit isDigitChar esigned.2
        if eds = [] ∨ rest2 ≠ [] then none
        else
          let ev : ℚ := (10 : ℚ) ^ natOfDigits eds
          some (sign * (if esigned.1 then mant / ev else mant * ev))
      else none

/-- Anchored match of `piExprRegex`
`^(-?)(\d*\.?\d*)\s*\*?\s*pi(?:\s*/\s*(\d+\.?\d*))?$`, returning the three
capture groups (sign present, coefficient text, optional denominator text).
The pattern's character classes are pairwise disjoint at every joint, so
greedy left-to-right matching coincides with the regexp's backtracking
semantics. -/
def matchPiExpr (cs : List Char) : Option (Bool × List Char × Option (List Char)) :=
  let negSplit : Bool × List Char :=
    match cs with
    | '-' :: r => (true, r)
    | _ => (false, cs)
  let neg := negSplit.1
  let (d1, cs1) := takeWhileSplit isDigitChar negSplit.2
  let dotSplit : List Char × List Char :=
    match cs1 with
    | '.' :: r => (['.'], r)
    | _ => ([], cs1)
  let (d2, cs2) := takeWhileSplit isDigitChar dotSplit.2
  let coeff := d1 ++ dotSplit.1 ++ d2
  let cs3 := cs2.dropWhile isSpaceChar
  let cs4 :=
    match cs3 with
    | '*' :: r => r
    | _ => cs3
  let cs5 := cs4.dropWhile isSpaceChar
  match cs5 with
  | 'p' :: 'i' :: rest =>
    match rest with
    | [] => some (neg, coeff, none)
    | _ =>
      match rest.dropWhile isSpaceChar with
      | '/' :: rest2 =>
        let rest3 := rest2.dropWhile isSpaceChar
        let (e1, rest4) := takeWhileSplit isDigitChar rest3
        let edotSplit : List Char × List Char :=
          match rest4 with
          | '.' :: r => (['.'], r)
          | _ => ([], rest4)
        let (e2, rest5) := takeWhileSplit isDigitChar edotSplit.2
        if e1 = [] ∨ rest5 ≠ [] then none
        else some (neg, coeff, some (e1 ++ edotSplit.1 ++ e2))
      | _ => none
  | _ => none

/-- `parseParamExpr` (params.go): trim, try a plain decimal first, then the
(lower-cased) pi-expression form.  `none` models the `(0, false)` failure
return. -/
def parseParamExprChars (cs0 : List Char) : Option ℚ :=
  let cs := trimChars cs0
  if cs = [] then none
  else
    match parseFloat cs with
    | some v => some v
    | none =>
      let low := cs.map Char.toLower
      match matchPiExpr low with
      | none => none
      | some (neg, coeffStr, denomStr) =>
        let coeffRes : Option ℚ := if coeffStr = [] then some 1 else parseFloat coeffStr
        match coeffRes with
        | none => none
        | some coeff =>
          let result := coeff * piQ
          match denomStr with
          | none => some (if neg then -result else result)
          | some ds =>
            match parseFloat ds with
            | none => none
            | some denom =>
              if denom = 0 then none
              else some (if neg then -(result / denom) else result / denom)

/-- String-level entry point of `parseParamExpr`. -/
def parseParamExpr (s : String) : Option ℚ :=
  parseParamExprChars s.toList

/-- One row of `formatParam`'s table of recognized pi fractions. -/
structure PiForm where
  value : ℚ
  display : String
deriving DecidableEq

/-- The fixed ordered table of common pi-valued fractions (formatParam). -/
def piForms : List PiForm :=
  [⟨2 * piQ, "2*pi"⟩, ⟨piQ, "pi"⟩, ⟨piQ / 2, "pi/2"⟩, ⟨piQ / 3, "pi/3"⟩,
   ⟨piQ / 4, "pi/4"⟩, ⟨piQ / 6, "pi/6"⟩, ⟨piQ / 8, "pi/8"⟩,
   ⟨3 * piQ / 4, "3*pi/4"⟩, ⟨3 * piQ / 2, "3*pi/2"⟩, ⟨2 * piQ / 3, "2*pi/3"⟩]

/-- The tolerance `1e-10` used by `formatParam`. -/
def tol : ℚ := 1 / 10 ^ 10

/-- The `fmt.Sprintf("%g", val)` fallback of `formatParam`, abstracted as an
exact rational rendering; no claim depends on its output. -/
def formatFloatG (val : ℚ) : String := toString val

/-- The scan loop of `formatParam` over the pi-fraction table: first value
within `tol` of `val` (or of `-val`, prefixing a minus sign) wins. -/
def piScan (val : ℚ) : List PiForm → Option String
  | [] => none
  | pf :: rest =>
    if |val - pf.value| < tol then some pf.display
    else if |val + pf.value| < tol then some ("-" ++ pf.display)
    else piScan val rest

/-- `formatParam` (params.go). -/
def formatParam (val : ℚ) : String :=
  (piScan val piForms).getD (formatFloatG val)

/-- `strings.Split(input, ",")` on a character list. -/
def splitOnComma : List Char → List (List Char)
  | [] => [[]]
  | c :: rest =>
    match splitOnComma rest with
    | [] => [[c]]
    | g :: gs => if c = ',' then [] :: g :: gs else (c :: g) :: gs

/-- Loop body of `Model.parseParams`: trim each comma-separated part, skip
empty parts, fail the whole list (`nil`, modelled as `none`) as soon as any
part fails to parse. -/
def parseParamsList : List (List Char) → Option (List ℚ)
  | [] => some []
  | part :: rest =>
    let p := trimChars part
    if p = [] then parseParamsList rest
    else
      match parseParamExprChars p with
      | none => none
      | some v =>
        match parseParamsList rest with
        | none => none
        | some vs => some (v :: vs)

/-- `Model.parseParams` (params.go). -/
def parseParams (input : String) : Option (List ℚ) :=
  parseParamsList (splitOnComma input.toList)

/-- If any comma-separated part of the list has nonempty trimmed text that
fails to parse, the whole `parseParams` loop returns `none`. -/
theorem parseParamsList_eq_none_of_mem_fail (parts : List (List Char))
    (part : List Char) (hmem : part ∈ parts) (hne : trimChars part ≠ [])
    (hfail : parseParamExprChars (trimChars part) = none) :
    parseParamsList parts = none := by
  induction parts with
  | nil => cases hmem
  | cons a rest ih =>
    rcases List.mem_cons.mp hmem with rfl | hmem'
    · simp only [parseParamsList, if_neg hne, hfail]
    · by_cases ha : trimChars a = []
      · simp only [parseParamsList, if_pos ha]
        exact ih hmem'
      · simp only [parseParamsList, if_neg ha]
        cases parseParamExprChars (trimChars a) with
        | none => rfl
        | some v =>
          simp only
          rw [ih hmem']

/-- C9: for every input string, if any comma-separated token (with nonempty
trimmed text) fails to parse as a plain decimal or a pi-expression,
`parseParams` returns `nil` (modelled as `none`): no partial list of the
tokens that did parse is ever returned. -/
theorem C9_parseParams_all_or_nothing (input : String)
    (h : ∃ part ∈ splitOnComma input.toList,
      trimChars part ≠ [] ∧ parseParamExprChars (trimChars part) = none) :
    parseParams input = none := by
  obtain ⟨part, hmem, hne, hfail⟩ := h
  exact parseParamsList_eq_none_of_mem_fail _ part hmem hne hfail

unseal Rat.mul Rat.inv Rat.ofScientific Rat.add Rat.sub in
/-- Witness for C9 at the concrete input `"pi/2,garbage"`. -/
theorem C9_parseParams_all_or_nothing_witness :
    parseParams "pi/2,garbage" = none :=
  C9_parseParams_all_or_nothing "pi/2,garbage"
    ⟨"garbage".toList, by decide, by decide, by decide⟩

unseal Rat.mul Rat.inv Rat.ofScientific Rat.add Rat.sub in
/-- C6: for every value in the pi-fraction table and for its negation,
`formatParam` returns the table's symbolic string (with a `-` prefix for the
negation), and `parseParamExpr` applied to that output succeeds with a value
within absolute tolerance 1e-10 of the original. -/
theorem C6_pi_table_roundtrip :
    piForms.Forall (fun pf =>
      formatParam pf.value = pf.display ∧
      formatParam (-pf.value) = "-" ++ pf.display ∧
      (parseParamExpr (formatParam pf.value)).any
        (fun w => |w - pf.value| ≤ tol) = true ∧
      (parseParamExpr (formatParam (-pf.value))).any
        (fun w => |w + pf.value| ≤ tol) = true) := by
  decide

/-! ## Statevector simulator (quantum.go)

Amplitudes are exact complex numbers.  The Go amplitude array of length
`2^NumQubits` is modelled as a total function `ℕ → ℂ`; only the indices
below `2^NumQubits` are ever read by the simulator or its consumers, and
each in-place pairwise update is written as the function giving every
position its new value.  Qubit indices are Go `int`s; the sentinel `-1`
(no control) is kept, and a nonnegative index `q` is used as the natural
number `q.toNat` where the source shifts by it. -/

noncomputable section

/-- `StateVector` (quantum.go): `NumQubits` plus the amplitude array. -/
@[ext]
structure StateVector where
  NumQubits : ℕ
  Amplitudes : ℕ → ℂ

/-- `NewStateVector`: the all-zero basis state, amplitude 1 at index 0. -/
def NewStateVector (numQubits : ℕ) : StateVector :=
  ⟨numQubits, fun i => if i = 0 then 1 else 0⟩

/-- The factor `complex(1.0/math.Sqrt2, 0)` of `applyH`. -/
def hFactor : ℂ := ((1 / Real.sqrt 2 : ℝ) : ℂ)

/-- `applyH`: the pair `(i, i|bit)` becomes `(h*(a+b), h*(a-b))`. -/
def StateVector.applyH (s : StateVector) (q : ℕ) : StateVector :=
  let bit := 1 <<< q
  ⟨s.NumQubits, fun i =>
    if i &&& bit = 0 then hFactor * (s.Amplitudes i + s.Amplitudes (i ||| bit))
    else hFactor * (s.Amplitudes (i ^^^ bit) - s.Amplitudes i)⟩

/-- `applyX`: swap the amplitudes of each `(i, i|bit)` pair. -/
def StateVector.applyX (s : StateVector) (q : ℕ) : StateVector :=
  let bit := 1 <<< q
  ⟨s.NumQubits, fun i =>
    if i &&& bit = 0 then s.Amplitudes (i ||| bit)
    else s.Amplitudes (i ^^^ bit)⟩

/-- `applyY`: swap each pair with phases `(+i, -i)`. -/
def StateVector.applyY (s : StateVector) (q : ℕ) : StateVector :=
  let bit := 1 <<< q
  ⟨s.NumQubits, fun i =>
    if i &&& bit = 0 then Complex.I * s.Amplitudes (i ||| bit)
    else -Complex.I * s.Amplitudes (i ^^^ bit)⟩

/-- `applyZ`: negate the amplitudes whose target bit is 1. -/
def StateVector.applyZ (s : StateVector) (q : ℕ) : StateVector :=
  let bit := 1 <<< q
  ⟨s.NumQubits, fun i =>
    if i &&& bit ≠ 0 then s.Amplitudes i * (-1) else s.Amplitudes i⟩

/-- `applyS`: multiply the bit-1 amplitudes by `±i`. -/
def StateVector.applyS (s : StateVector) (q : ℕ) (dagger : Bool) : StateVector :=
  let bit := 1 <<< q
  let factor : ℂ := if dagger then -Complex.I else Complex.I
  ⟨s.NumQubits, fun i =>
    if i &&& bit ≠ 0 then s.Amplitudes i * factor else s.Amplitudes i⟩

/-- `applyT`: multiply the bit-1 amplitudes by `exp(±iπ/4)`. -/
def StateVector.applyT (s : StateVector) (q : ℕ) (dagger : Bool) : StateVector :=
  let bit := 1 <<< q
  let factor : ℂ :=
    if dagger then Complex.exp ((-(Real.pi / 4) : ℝ) * Complex.I)
    else Complex.exp ((Real.pi / 4 : ℝ) * Complex.I)
  ⟨s.NumQubits, fun i =>
    if i &&& bit ≠ 0 then s.Amplitudes i * factor else s.Amplitudes i⟩

/-- `applyRX`: the rotation `[[cos, -i sin], [-i sin, cos]]` on each pair. -/
def StateVector.applyRX (s : StateVector) (q : ℕ) (theta : ℝ) : StateVector :=
  let bit := 1 <<< q
  let c : ℂ := ((Real.cos (theta / 2) : ℝ) : ℂ)
  let js : ℂ := ((-Real.sin (theta / 2) : ℝ) : ℂ) * Complex.I
  ⟨s.NumQubits, fun i =>
    if i &&& bit = 0 then c * s.Amplitudes i + js * s.Amplitudes (i ||| bit)
    else js * s.Amplitudes (i ^^^ bit) + c * s.Amplitudes i⟩

/-- `applyRY`: the real rotation `[[cos, -sin], [sin, cos]]` on each pair. -/
def StateVector.applyRY (s : StateVector) (q : ℕ) (theta : ℝ) : StateVector :=
  let bit := 1 <<< q
  let c : ℂ := ((Real.cos (theta / 2) : ℝ) : ℂ)
  let s_ : ℂ := ((Real.sin (theta / 2) : ℝ) : ℂ)
  ⟨s.NumQubits, fun i =>
    if i &&& bit = 0 then c * s.Amplitudes i - s_ * s.Amplitudes (i ||| bit)
    else s_ * s.Amplitudes (i ^^^ bit) + c * s.Amplitudes i⟩

/-- `applyRZ`: multiply by `exp(iθ/2)` where the bit is 1 and by its
conjugate where it is 0. -/
def StateVector.applyRZ (s : StateVector) (q : ℕ) (theta : ℝ) : StateVector :=
  let bit := 1 <<< q
  let phase : ℂ := Complex.exp ((theta / 2 : ℝ) * Complex.I)
  ⟨s.NumQubits, fun i =>
    if i &&& bit ≠ 0 then s.Amplitudes i * phase
    else s.Amplitudes i * (starRingEnd ℂ) phase⟩

/-- `applyCX`: swap each `(i, i|tBit)` pair whose control bit is 1. -/
def StateVector.applyCX (s : StateVector) (control target : ℕ) : StateVector :=
  let cBit := 1 <<< control
  let tBit := 1 <<< target
  ⟨s.NumQubits, fun i =>
    if i &&& cBit ≠ 0 then
      if i &&& tBit = 0 then s.Amplitudes (i ||| tBit)
      else s.Amplitudes (i ^^^ tBit)
    else s.Amplitudes i⟩

/-- `applyCZ`: negate the amplitudes where both bits are 1. -/
def StateVector.applyCZ (s : StateVector) (control target : ℕ) : StateVector :=
  let cBit := 1 <<< control
  let tBit := 1 <<< target
  ⟨s.NumQubits, fun i =>
    if i &&& cBit ≠ 0 ∧ i &&& tBit ≠ 0 then s.Amplitudes i * (-1)
    else s.Amplitudes i⟩

/-- `applySWAP`: exchange amplitudes between indices differing in exactly
the two swapped bits. -/
def StateVector.applySWAP (s : StateVector) (q1 q2 : ℕ) : StateVector :=
  let bit1 := 1 <<< q1
  let bit2 := 1 <<< q2
  ⟨s.NumQubits, fun i =>
    if i &&& bit1 ≠ 0 ∧ i &&& bit2 = 0 then s.Amplitudes ((i ^^^ bit1) ||| bit2)
    else if i &&& bit1 = 0 ∧ i &&& bit2 ≠ 0 then s.Amplitudes ((i ^^^ bit2) ||| bit1)
    else s.Amplitudes i⟩

/-- `applyReset`: project onto bit=0, renormalizing by `√prob0` (factor 1
when the probability mass is 0). -/
def StateVector.applyReset (s : StateVector) (q : ℕ) : StateVector :=
  let bit := 1 <<< q
  let prob0 : ℝ := ∑ i ∈ Finset.range (2 ^ s.NumQubits),
    if i &&& bit = 0 then Complex.normSq (s.Amplitudes i) else 0
  let norm : ℝ := if 0 < prob0 then Real.sqrt prob0 else 1
  ⟨s.NumQubits, fun i =>
    if i &&& bit = 0 then s.Amplitudes i / ((norm : ℝ) : ℂ) else 0⟩

/-- `ApplyGate` (quantum.go): dispatch on the gate type string.  A `theta`
defaulting to 0 models the `len(params) > 0` guard; unknown types and
`MEASURE` leave the state unchanged, and two-qubit gates require a
nonnegative control.  (A negative target would panic in the source; it is
read as `Int.toNat` here and no claim exercises it.) -/
def StateVector.ApplyGate (s : StateVector) (gateType : String)
    (target control : ℤ) (params : List ℝ) : StateVector :=
  match gateType with
  | "H" => s.applyH target.toNat
  | "X" => s.applyX target.toNat
  | "Y" => s.applyY target.toNat
  | "Z" => s.applyZ target.toNat
  | "S" => s.applyS target.toNat false
  | "SDG" | "Sdg" => s.applyS target.toNat true
  | "T" => s.applyT target.toNat false
  | "TDG" | "Tdg" => s.applyT target.toNat true
  | "RX" => s.applyRX target.toNat (params.headD 0)
  | "RY" => s.applyRY target.toNat (params.headD 0)
  | "RZ" => s.applyRZ target.toNat (params.headD 0)
  | "P" | "U1" => s.applyRZ target.toNat (params.headD 0)
  | "CX" => if 0 ≤ control then s.applyCX control.toNat target.toNat else s
  | "CZ" => if 0 ≤ control then s.applyCZ control.toNat target.toNat else s
  | "SWAP" => if 0 ≤ control then s.applySWAP control.toNat target.toNat else s
  | "RESET" => s.applyReset target.toNat
  | "MEASURE" => s
  | _ => s

/-- `QubitProbability` (quantum.go). -/
structure QubitProbability where
  Prob0 : ℝ
  Prob1 : ℝ

/-- `GetQubitProbabilities`: accumulate `|amplitude|²` of every basis state
into the per-qubit marginal according to each qubit's bit. -/
def StateVector.GetQubitProbabilities (s : StateVector) : List QubitProbability :=
  (List.range s.NumQubits).map fun q =>
    { Prob0 := ∑ i ∈ Finset.range (2 ^ s.NumQubits),
        if i &&& (1 <<< q) = 0 then Complex.normSq (s.Amplitudes i) else 0
      Prob1 := ∑ i ∈ Finset.range (2 ^ s.NumQubits),
        if i &&& (1 <<< q) ≠ 0 then Complex.normSq (s.Amplitudes i) else 0 }

end

/-- `Gate` (the `Circuit` view of one operation).  The source field `Type`
is a Lean keyword and is named `Ty` here; every other field keeps its
source name.  `-1` sentinels for `Control`, `MeasureSource` and
`ClassicalControl` are kept as in the source. -/
structure Gate where
  Ty : String
  Target : ℤ
  Control : ℤ
  Controls : List ℤ
  MeasureSource : ℤ
  Step : ℤ
  Params : List ℝ
  IsDagger : Bool
  IsReset : Bool
  ClassicalControl : ℤ
  IsNoise : Bool
  NoiseType : String

/-- `Circuit` (the flat gate-list view). -/
structure Circuit where
  NumQubits : ℕ
  Gates : List Gate
  MaxSteps : ℤ

/-- One outer iteration of the exchange sort in `SimulateCircuit`
(lines 302-308 of quantum.go): scan the tail left to right, swapping the
current front element with any later gate of strictly smaller step; returns
the element that ends up at the front and the rearranged tail. -/
def pass1 (x : Gate) : List Gate → Gate × List Gate
  | [] => (x, [])
  | y :: ys =>
    if y.Step < x.Step then ((pass1 y ys).1, x :: (pass1 y ys).2)
    else ((pass1 x ys).1, y :: (pass1 x ys).2)

/-- The exchange sort of `SimulateCircuit`, iterated over the list; the
fuel argument is the list length, which `pass1` preserves. -/
def sortGatesAux : ℕ → List Gate → List Gate
  | _, [] => []
  | 0, l => l
  | fuel + 1, x :: xs => (pass1 x xs).1 :: sortGatesAux fuel (pass1 x xs).2

/-- The gate ordering `SimulateCircuit` computes before applying gates:
`for i; for j > i: if gates[j].Step < gates[i].Step swap`. -/
def sortGates (gates : List Gate) : List Gate :=
  sortGatesAux gates.length gates

/-- The specification's execution order: a stable sort by ascending step.
Insertion sort with the reflexive order `Step ≤ Step` keeps the original
insertion order among gates with equal step.  (Spec-side definition, for
comparison with `sortGates`.) -/
def stableSortGatesByStep (gates : List Gate) : List Gate :=
  gates.insertionSort (fun a b => a.Step ≤ b.Step)

noncomputable section

/-- The skip test on gate kinds in the `SimulateCircuit` loop: barriers,
measurements, measurement-controlled nodes, noise and classically
controlled gates are all skipped (`continue`).  -/
def simSkippedB (g : Gate) : Bool :=
  g.Ty == "BARRIER" || g.Ty == "MEASURE" || g.Ty == "MCX" ||
    g.IsNoise || decide (0 ≤ g.ClassicalControl)

/-- The `upToStep` window test in the `SimulateCircuit` loop:
`upToStep >= 0 && gate.Step > upToStep` skips the gate. -/
def stepSkippedB (upToStep : ℤ) (g : Gate) : Bool :=
  decide (0 ≤ upToStep) && decide (upToStep < g.Step)

/-- The application part of the `SimulateCircuit` loop body: a gate with a
nonempty `Controls` list is applied once per control, otherwise once with
its single `Control` field. -/
def simApply (state : StateVector) (gate : Gate) : StateVector :=
  if gate.Controls ≠ [] then
    gate.Controls.foldl
      (fun st ctrl => st.ApplyGate gate.Ty gate.Target ctrl gate.Params) state
  else
    state.ApplyGate gate.Ty gate.Target gate.Control gate.Params

/-- The whole `SimulateCircuit` loop body for one gate. -/
def simStep (upToStep : ℤ) (state : StateVector) (gate : Gate) : StateVector :=
  if stepSkippedB upToStep gate then state
  else if simSkippedB gate then state
  else simApply state gate

/-- `SimulateCircuit` (quantum.go): sort a copy of the gate list with the
exchange sort, then fold the loop body over it starting from the all-zero
state. -/
def SimulateCircuit (circuit : Circuit) (upToStep : ℤ) : StateVector :=
  if circuit.NumQubits = 0 then NewStateVector 1
  else (sortGates circuit.Gates).foldl (simStep upToStep)
    (NewStateVector circuit.NumQubits)

end

/-- C2: from the all-zero two-qubit state, `applyH` on qubit 0 followed by
`applyCX` with control 0 and target 1 yields the Bell amplitudes
`[1/√2, 0, 0, 1/√2]`, and `GetQubitProbabilities` then reports marginal
probabilities `P(0) = P(1) = 0.5` for both qubits. -/
theorem C2_bell_state_preparation :
    (((NewStateVector 2).applyH 0).applyCX 0 1).Amplitudes 0 =
        ((1 / Real.sqrt 2 : ℝ) : ℂ) ∧
    (((NewStateVector 2).applyH 0).applyCX 0 1).Amplitudes 1 = 0 ∧
    (((NewStateVector 2).applyH 0).applyCX 0 1).Amplitudes 2 = 0 ∧
    (((NewStateVector 2).applyH 0).applyCX 0 1).Amplitudes 3 =
        ((1 / Real.sqrt 2 : ℝ) : ℂ) ∧
    (((NewStateVector 2).applyH 0).applyCX 0 1).GetQubitProbabilities =
        [⟨1/2, 1/2⟩, ⟨1/2, 1/2⟩] := by
  refine ⟨?_, ?_, ?_, ?_, ?_⟩ <;>
    norm_num [StateVector.GetQubitProbabilities, List.range_succ,
      Finset.sum_range_succ,
      NewStateVector, StateVector.applyH, StateVector.applyCX, hFactor,
      Nat.one_shiftLeft, Complex.normSq_ofReal,
      show (1 ||| 2 : ℕ) = 3 from by decide, show (3 ||| 2 : ℕ) = 3 from by decide,
      show (3 ||| 1 : ℕ) = 3 from by decide, show (2 ||| 1 : ℕ) = 3 from by decide,
      show (0 ||| 1 : ℕ) = 1 from by decide, show (0 ||| 2 : ℕ) = 2 from by decide,
      show (3 ^^^ 2 : ℕ) = 1 from by decide, show (2 ^^^ 2 : ℕ) = 0 from by decide,
      show (3 &&& 2 : ℕ) = 2 from by decide, show (2 &&& 2 : ℕ) = 2 from by decide,
      show (1 &&& 2 : ℕ) = 0 from by decide, show (0 &&& 2 : ℕ) = 0 from by decide,
      Real.mul_self_sqrt]

/-- C8: each parameterized kind (`RX`, `RY`, `RZ`, `P`, `U1`) invoked
through `ApplyGate` with an empty params list treats the parameter as zero,
and the zero-angle rotation leaves the state vector unchanged (there is no
panic: the `len(params) > 0` guard supplies the default). -/
theorem C8_empty_params_is_identity (s : StateVector) (t c : ℤ) (gt : String)
    (hgt : gt ∈ (["RX", "RY", "RZ", "P", "U1"] : List String)) :
    s.ApplyGate gt t c [] = s := by
  fin_cases hgt <;>
  · refine StateVector.ext rfl (funext fun i => ?_)
    norm_num [StateVector.ApplyGate, StateVector.applyRX, StateVector.applyRY,
      StateVector.applyRZ]

/-- Witness for C8 at the concrete kind `RX` on a fresh one-qubit state. -/
theorem C8_empty_params_is_identity_witness :
    (NewStateVector 1).ApplyGate "RX" 0 (-1) [] = NewStateVector 1 :=
  C8_empty_params_is_identity (NewStateVector 1) 0 (-1) "RX" (by simp)

/-! ## The exchange sort of `SimulateCircuit` (claim C1) -/

/-- `pass1` preserves the length of the tail. -/
theorem pass1_snd_length (x : Gate) (l : List Gate) :
    (pass1 x l).2.length = l.length := by
  induction l generalizing x with
  | nil => rfl
  | cons y ys ih =>
    by_cases h : y.Step < x.Step <;> simp [pass1, h, ih]

/-- `pass1` permutes its input: the selected front element together with
the rearranged tail is a permutation of the original elements. -/
theorem pass1_cons_perm (x : Gate) (l : List Gate) :
    List.Perm ((pass1 x l).1 :: (pass1 x l).2) (x :: l) := by
  induction l generalizing x with
  | nil => exact List.Perm.refl _
  | cons y ys ih =>
    by_cases h : y.Step < x.Step
    · simp only [pass1, if_pos h]
      exact List.Perm.trans (List.Perm.swap x (pass1 y ys).1 (pass1 y ys).2)
        (List.Perm.cons x (ih y))
    · simp only [pass1, if_neg h]
      exact List.Perm.trans (List.Perm.swap y (pass1 x ys).1 (pass1 x ys).2)
        (List.Perm.trans (List.Perm.cons y (ih x))
          (List.Perm.swap x y ys))

/-- The element `pass1` selects has minimal step among all elements. -/
theorem pass1_fst_min (x : Gate) (l : List Gate) :
    (pass1 x l).1.Step ≤ x.Step ∧
      ∀ g ∈ (pass1 x l).2, (pass1 x l).1.Step ≤ g.Step := by
  induction l generalizing x with
  | nil => exact ⟨le_refl _, by simp [pass1]⟩
  | cons y ys ih =>
    by_cases h : y.Step < x.Step
    · simp only [pass1, if_pos h]
      obtain ⟨h1, h2⟩ := ih y
      refine ⟨le_trans h1 (le_of_lt h), ?_⟩
      intro g hg
      rcases List.mem_cons.mp hg with rfl | hg'
      · exact le_trans h1 (le_of_lt h)
      · exact h2 g hg'
    · simp only [pass1, if_neg h]
      obtain ⟨h1, h2⟩ := ih x
      refine ⟨h1, ?_⟩
      intro g hg
      rcases List.mem_cons.mp hg with rfl | hg'
      · exact le_trans h1 (not_lt.mp h)
      · exact h2 g hg'

/-- The exchange sort returns a permutation of its input (fueled form). -/
theorem sortGatesAux_perm :
    ∀ (fuel : ℕ) (l : List Gate), l.length ≤ fuel →
      List.Perm (sortGatesAux fuel l) l := by
  intro fuel
  induction fuel with
  | zero =>
    intro l hl
    have : l = [] := List.length_eq_zero.mp (Nat.le_zero.mp hl)
    subst this
    exact List.Perm.refl _
  | succ n ih =>
    intro l hl
    cases l with
    | nil => exact List.Perm.refl _
    | cons x xs =>
      simp only [sortGatesAux]
      have hlen : (pass1 x xs).2.length ≤ n := by
        rw [pass1_snd_length]
        simpa using hl
      exact List.Perm.trans
        (List.Perm.cons (pass1 x xs).1 (ih _ hlen))
        (pass1_cons_perm x xs)

/-- The exchange sort produces a list sorted by nondecreasing step
(fueled form). -/
theorem sortGatesAux_sorted :
    ∀ (fuel : ℕ) (l : List Gate), l.length ≤ fuel →
      (sortGatesAux fuel l).Sorted (fun a b : Gate => a.Step ≤ b.Step) := by
  intro fuel
  induction fuel with
  | zero =>
    intro l hl
    have : l = [] := List.length_eq_zero.mp (Nat.le_zero.mp hl)
    subst this
    exact List.sorted_nil
  | succ n ih =>
    intro l hl
    cases l with
    | nil => exact List.sorted_nil
    | cons x xs =>
      simp only [sortGatesAux]
      have hlen : (pass1 x xs).2.length ≤ n := by
        rw [pass1_snd_length]
        simpa using hl
      refine List.sorted_cons.mpr ⟨?_, ih _ hlen⟩
      intro b hb
      have hmem : b ∈ (pass1 x xs).2 :=
        (sortGatesAux_perm n _ hlen).mem_iff.mp hb
      exact (pass1_fst_min x xs).2 b hmem

/-- C1 (amended): the gate order `SimulateCircuit` applies is the exchange
sort `sortGates` of the gate list, which is a permutation of the gates in
nondecreasing step order; gates with equal step are, however, not kept in
insertion order (the sort is not stable, see the counterexample). -/
theorem C1_sortGates_sorted_perm (gates : List Gate) :
    List.Perm (sortGates gates) gates ∧
      (sortGates gates).Sorted (fun a b : Gate => a.Step ≤ b.Step) :=
  ⟨sortGatesAux_perm gates.length gates (le_refl _),
    sortGatesAux_sorted gates.length gates (le_refl _)⟩

/-- Counterexample to C1 as stated: on the gate list
`[H at step 1, X at step 1, Z at step 0]` the order `SimulateCircuit`
computes is `[Z, X, H]`, while the stable sort by step keeps the two
step-1 gates in insertion order, `[Z, H, X]`.  The exchange sort is not a
stable sort. -/
theorem C1_sortGates_not_stable_cex :
    (sortGates
        [⟨"H", 0, -1, [], -1, 1, [], false, false, -1, false, ""⟩,
         ⟨"X", 0, -1, [], -1, 1, [], false, false, -1, false, ""⟩,
         ⟨"Z", 0, -1, [], -1, 0, [], false, false, -1, false, ""⟩]).map Gate.Ty ≠
      (stableSortGatesByStep
        [⟨"H", 0, -1, [], -1, 1, [], false, false, -1, false, ""⟩,
         ⟨"X", 0, -1, [], -1, 1, [], false, false, -1, false, ""⟩,
         ⟨"Z", 0, -1, [], -1, 0, [], false, false, -1, false, ""⟩]).map Gate.Ty := by
  decide

/-! ## Skipped gates have no effect (claim C7) -/

/-- The `SimulateCircuit` loop applied to a gate list equals the plain
application fold over the gates that pass both skip tests. -/
theorem foldl_simStep_eq_filter (u : ℤ) :
    ∀ (l : List Gate) (s : StateVector),
      l.foldl (simStep u) s =
        (l.filter fun g => !(stepSkippedB u g || simSkippedB g)).foldl simApply s := by
  intro l
  induction l with
  | nil => intro s; rfl
  | cons g l ih =>
    intro s
    by_cases h1 : stepSkippedB u g
    · simp [List.filter_cons, simStep, h1, ih]
    · by_cases h2 : simSkippedB g
      · simp [List.filter_cons, simStep, h1, h2, ih]
      · simp [List.filter_cons, simStep, h1, h2, ih]

/-- Two sorted permutations of each other with pairwise-distinct steps are
equal. -/
theorem eq_of_perm_sorted_distinct (l₁ l₂ : List Gate)
    (hp : List.Perm l₁ l₂)
    (hs₁ : l₁.Sorted (fun a b : Gate => a.Step ≤ b.Step))
    (hs₂ : l₂.Sorted (fun a b : Gate => a.Step ≤ b.Step))
    (hd₁ : l₁.Pairwise (fun a b : Gate => a.Step ≠ b.Step)) : l₁ = l₂ := by
  have hd₂ : l₂.Pairwise (fun a b : Gate => a.Step ≠ b.Step) :=
    (hp.pairwise_iff fun h => Ne.symm h).mp hd₁
  have hlt₁ : l₁.Pairwise (fun a b : Gate => a.Step < b.Step) :=
    (hs₁.and hd₁).imp fun h => lt_of_le_of_ne h.1 h.2
  have hlt₂ : l₂.Pairwise (fun a b : Gate => a.Step < b.Step) :=
    (hs₂.and hd₂).imp fun h => lt_of_le_of_ne h.1 h.2
  haveI : IsAntisymm Gate (fun a b : Gate => a.Step < b.Step) :=
    ⟨fun _ _ h1 h2 => absurd h1 (lt_asymm h2)⟩
  exact List.eq_of_perm_of_sorted hp hlt₁ hlt₂

/-- C7 (amended): for every circuit whose gates occupy pairwise distinct
steps and every `upToStep`, the barrier / measurement /
measurement-controlled / classically-controlled / noise gates have no
effect: `SimulateCircuit` returns the same amplitudes as for the circuit
with all such gates removed.  (Without the distinct-step hypothesis the
unstable exchange sort can reorder the remaining equal-step gates, see the
counterexample.) -/
theorem C7_skipped_gates_removable (c : Circuit) (u : ℤ)
    (hd : c.Gates.Pairwise (fun a b : Gate => a.Step ≠ b.Step)) :
    SimulateCircuit c u =
      SimulateCircuit { c with Gates := c.Gates.filter fun g => !simSkippedB g } u := by
  unfold SimulateCircuit
  by_cases hn : c.NumQubits = 0
  · simp [hn]
  · simp only [hn, if_false]
    rw [foldl_simStep_eq_filter, foldl_simStep_eq_filter]
    congr 1
    -- the two filtered, sorted gate sequences coincide
    set keep : Gate → Bool := fun g => !(stepSkippedB u g || simSkippedB g) with hkeep
    have hkeep_imp : ∀ g : Gate, keep g = true → (!simSkippedB g) = true := by
      intro g hg
      simp only [hkeep, Bool.not_eq_true', Bool.or_eq_false_iff] at hg
      simp [hg.2]
    -- both sides are permutations of `c.Gates.filter keep`
    have hperm₁ : List.Perm ((sortGates c.Gates).filter keep) (c.Gates.filter keep) :=
      (C1_sortGates_sorted_perm c.Gates).1.filter keep
    have hperm₂ :
        List.Perm ((sortGates (c.Gates.filter fun g => !simSkippedB g)).filter keep)
          (c.Gates.filter keep) := by
      refine List.Perm.trans
        ((C1_sortGates_sorted_perm (c.Gates.filter fun g => !simSkippedB g)).1.filter keep) ?_
      rw [List.filter_filter]
      have : ∀ g ∈ c.Gates, (keep g && !simSkippedB g) = keep g := by
        intro g _
        by_cases hk : keep g = true
        · simp [hk, hkeep_imp g hk]
        · simp [Bool.eq_false_iff.mpr hk]
      exact (List.filter_congr this).symm ▸ List.Perm.refl _
    have hsort₁ : ((sortGates c.Gates).filter keep).Sorted
        (fun a b : Gate => a.Step ≤ b.Step) :=
      (C1_sortGates_sorted_perm c.Gates).2.sublist (List.filter_sublist _)
    have hsort₂ : ((sortGates (c.Gates.filter fun g => !simSkippedB g)).filter keep).Sorted
        (fun a b : Gate => a.Step ≤ b.Step) :=
      (C1_sortGates_sorted_perm _).2.sublist (List.filter_sublist _)
    have hdist : ((sortGates c.Gates).filter keep).Pairwise
        (fun a b : Gate => a.Step ≠ b.Step) := by
      have hsg : (sortGates c.Gates).Pairwise (fun a b : Gate => a.Step ≠ b.Step) :=
        ((C1_sortGates_sorted_perm c.Gates).1.pairwise_iff fun h => Ne.symm h).mpr hd
      exact hsg.sublist (List.filter_sublist _)
    exact eq_of_perm_sorted_distinct _ _
      (hperm₁.trans hperm₂.symm) hsort₁ hsort₂ hdist

/-- Witness for C7: a one-qubit circuit holding an H gate at step 0 and a
MEASURE gate at step 1 (distinct steps), simulated with `upToStep = -1`. -/
theorem C7_skipped_gates_removable_witness :
    SimulateCircuit
        ⟨1, [⟨"H", 0, -1, [], -1, 0, [], false, false, -1, false, ""⟩,
             ⟨"MEASURE", 0, -1, [], -1, 1, [], false, false, -1, false, ""⟩], 2⟩ (-1) =
      SimulateCircuit
        ⟨1, [⟨"H", 0, -1, [], -1, 0, [], false, false, -1, false, ""⟩,
             ⟨"MEASURE", 0, -1, [], -1, 1, [], false, false, -1, false, ""⟩].filter
           (fun g => !simSkippedB g), 2⟩ (-1) :=
  C7_skipped_gates_removable
    ⟨1, [⟨"H", 0, -1, [], -1, 0, [], false, false, -1, false, ""⟩,
         ⟨"MEASURE", 0, -1, [], -1, 1, [], false, false, -1, false, ""⟩], 2⟩ (-1)
    (by simp [List.pairwise_cons])

/-- Counterexample to C7 as stated: in the one-qubit circuit with gates
`[H (step 1), X (step 1), MEASURE (step 0)]`, removing the skipped MEASURE
gate changes the amplitudes.  With the MEASURE gate present, the exchange
sort produces the order `[MEASURE, X, H]`, so X is applied before H; after
removal the order is `[H, X]`.  The resulting amplitude at index 1 is
`-1/√2` in the first case and `1/√2` in the second. -/
theorem C7_skipped_gates_removable_cex :
    (SimulateCircuit ⟨1, [⟨"H", 0, -1, [], -1, 1, [], false, false, -1, false, ""⟩,
       ⟨"X", 0, -1, [], -1, 1, [], false, false, -1, false, ""⟩,
       ⟨"MEASURE", 0, -1, [], -1, 0, [], false, false, -1, false, ""⟩], 2⟩ (-1)).Amplitudes 1 ≠
    (SimulateCircuit ⟨1, [⟨"H", 0, -1, [], -1, 1, [], false, false, -1, false, ""⟩,
       ⟨"X", 0, -1, [], -1, 1, [], false, false, -1, false, ""⟩,
       ⟨"MEASURE", 0, -1, [], -1, 0, [], false, false, -1, false, ""⟩].filter
         (fun g => !simSkippedB g), 2⟩ (-1)).Amplitudes 1 := by
  have h1 : (SimulateCircuit ⟨1, [⟨"H", 0, -1, [], -1, 1, [], false, false, -1, false, ""⟩,
       ⟨"X", 0, -1, [], -1, 1, [], false, false, -1, false, ""⟩,
       ⟨"MEASURE", 0, -1, [], -1, 0, [], false, false, -1, false, ""⟩], 2⟩ (-1))
      = ((NewStateVector 1).applyX 0).applyH 0 := rfl
  have h2 : (SimulateCircuit ⟨1, [⟨"H", 0, -1, [], -1, 1, [], false, false, -1, false, ""⟩,
       ⟨"X", 0, -1, [], -1, 1, [], false, false, -1, false, ""⟩,
       ⟨"MEASURE", 0, -1, [], -1, 0, [], false, false, -1, false, ""⟩].filter
         (fun g => !simSkippedB g), 2⟩ (-1))
      = ((NewStateVector 1).applyH 0).applyX 0 := rfl
  rw [h1, h2]
  norm_num [StateVector.applyH, StateVector.applyX, NewStateVector, hFactor,
    Nat.one_shiftLeft, neg_eq_self ℚ ℂ, inv_eq_zero, Complex.ofReal_eq_zero,
    Real.sqrt_eq_zero']

/-! ## Norm preservation by the unitary gates (claim C10) -/

noncomputable section

/-- The sum of squared amplitude magnitudes of a state over its
`2^NumQubits` stored entries. -/
def StateVector.sumNormSq (s : StateVector) : ℝ :=
  ∑ i ∈ Finset.range (2 ^ s.NumQubits), Complex.normSq (s.Amplitudes i)

end

theorem and_two_pow_eq_zero_iff (i q : ℕ) :
    i &&& 2 ^ q = 0 ↔ i.testBit q = false := by
  rw [Nat.and_two_pow]
  cases h : i.testBit q <;>
    simp [h, Nat.not_eq_zero_of_lt (Nat.two_pow_pos q)]


theorem lor_eq_xor_of_and_zero {i q : ℕ} (h : i &&& 2 ^ q = 0) :
    i ||| 2 ^ q = i ^^^ 2 ^ q := by
  have hb : i.testBit q = false := (and_two_pow_eq_zero_iff i q).mp h
  apply Nat.eq_of_testBit_eq
  intro j
  by_cases hj : j = q
  · subst hj
    simp [Nat.testBit_or, Nat.testBit_xor, hb]
  · simp [Nat.testBit_or, Nat.testBit_xor,
      Nat.testBit_two_pow_of_ne (fun hq => hj hq.symm)]

theorem xor_two_pow_and_ne_zero {i q : ℕ} (h : i &&& 2 ^ q = 0) :
    (i ^^^ 2 ^ q) &&& 2 ^ q ≠ 0 := by
  have hb : i.testBit q = false := (and_two_pow_eq_zero_iff i q).mp h
  rw [Ne, and_two_pow_eq_zero_iff]
  simp [Nat.testBit_xor, hb]

theorem xor_two_pow_cancel (i b : ℕ) : (i ^^^ b) ^^^ b = i := by
  rw [Nat.xor_assoc, Nat.xor_self, Nat.xor_zero]

theorem and_xor_two_pow_of_ne {i : ℕ} {p q : ℕ} (hpq : p ≠ q) :
    (i ^^^ 2 ^ p) &&& 2 ^ q = i &&& 2 ^ q := by
  rw [Nat.and_two_pow, Nat.and_two_pow]
  congr 1
  simp [Nat.testBit_xor, Nat.testBit_two_pow_of_ne hpq]

/-- Summing over all `2^n` indices equals summing over the indices with bit
`q` clear, pairing each with its partner that has bit `q` set. -/
theorem sum_split_pair (n q : ℕ) (hq : q < n) (f : ℕ → ℝ) :
    ∑ i ∈ Finset.range (2 ^ n), f i =
      ∑ i ∈ (Finset.range (2 ^ n)).filter (fun i => i &&& 2 ^ q = 0),
        (f i + f (i ^^^ 2 ^ q)) := by
  have hbit : (2 : ℕ) ^ q < 2 ^ n := Nat.pow_lt_pow_right (by norm_num) hq
  rw [Finset.sum_add_distrib,
    ← Finset.sum_filter_add_sum_filter_not (Finset.range (2 ^ n))
      (fun i => i &&& 2 ^ q = 0) f]
  congr 1
  refine Finset.sum_nbij' (fun i => i ^^^ 2 ^ q) (fun i => i ^^^ 2 ^ q)
    ?_ ?_ ?_ ?_ ?_
  · intro a ha
    obtain ⟨har, hac⟩ := Finset.mem_filter.mp ha
    refine Finset.mem_filter.mpr ⟨?_, ?_⟩
    · exact Finset.mem_range.mpr
        (Nat.xor_lt_two_pow (Finset.mem_range.mp har) hbit)
    · have hb : a.testBit q = true := by
        rcases Bool.eq_false_or_eq_true (a.testBit q) with h | h
        · exact h
        · exact absurd ((and_two_pow_eq_zero_iff a q).mpr h) hac
      rw [and_two_pow_eq_zero_iff]
      simp [Nat.testBit_xor, hb]
  · intro a ha
    obtain ⟨har, hac⟩ := Finset.mem_filter.mp ha
    refine Finset.mem_filter.mpr ⟨?_, ?_⟩
    · exact Finset.mem_range.mpr
        (Nat.xor_lt_two_pow (Finset.mem_range.mp har) hbit)
    · exact fun h => xor_two_pow_and_ne_zero hac h
  · intro a _
    exact xor_two_pow_cancel a (2 ^ q)
  · intro a _
    exact xor_two_pow_cancel a (2 ^ q)
  · intro a _
    rw [xor_two_pow_cancel]

/-- Summing a function precomposed with an involution of the index range
leaves the sum unchanged. -/
theorem sum_invol (n : ℕ) (σ : ℕ → ℕ)
    (hmem : ∀ i ∈ Finset.range (2 ^ n), σ i ∈ Finset.range (2 ^ n))
    (hinv : ∀ i ∈ Finset.range (2 ^ n), σ (σ i) = i) (f : ℕ → ℝ) :
    ∑ i ∈ Finset.range (2 ^ n), f (σ i) = ∑ i ∈ Finset.range (2 ^ n), f i := by
  refine Finset.sum_nbij' σ σ hmem hmem hinv hinv ?_
  intro a _
  rfl

/-- The 2×2 Hadamard pair preserves the two squared magnitudes. -/
theorem normSq_H_pair (x y : ℂ) :
    Complex.normSq (hFactor * (x + y)) + Complex.normSq (hFactor * (x - y)) =
      Complex.normSq x + Complex.normSq y := by
  have h2 : Complex.normSq hFactor = 1 / 2 := by
    rw [hFactor, Complex.normSq_ofReal]
    rw [div_mul_div_comm, Real.mul_self_sqrt (by norm_num)]
    norm_num
  simp only [Complex.normSq_mul, h2]
  simp only [Complex.normSq_apply, Complex.add_re, Complex.add_im,
    Complex.sub_re, Complex.sub_im]
  ring

/-- `applyH` preserves the sum of squared amplitude magnitudes. -/
theorem sumNormSq_applyH (s : StateVector) (q : ℕ) (hq : q < s.NumQubits) :
    (s.applyH q).sumNormSq = s.sumNormSq := by
  unfold StateVector.sumNormSq StateVector.applyH
  simp only [Nat.one_shiftLeft]
  rw [sum_split_pair s.NumQubits q hq, sum_split_pair s.NumQubits q hq]
  refine Finset.sum_congr rfl ?_
  intro i hi
  obtain ⟨_, hlow⟩ := Finset.mem_filter.mp hi
  rw [if_pos hlow, if_neg (xor_two_pow_and_ne_zero hlow),
    lor_eq_xor_of_and_zero hlow, xor_two_pow_cancel]
  exact normSq_H_pair _ _

theorem normSq_exp_of_re_eq_zero (z : ℂ) (hz : z.re = 0) :
    Complex.normSq (Complex.exp z) = 1 := by
  rw [Complex.normSq_eq_abs, Complex.abs_exp, hz, Real.exp_zero, one_pow]

theorem and_xor_two_pow_self (i q : ℕ) :
    ((i ^^^ 2 ^ q) &&& 2 ^ q = 0) ↔ ¬(i &&& 2 ^ q = 0) := by
  rw [and_two_pow_eq_zero_iff, and_two_pow_eq_zero_iff]
  cases h : i.testBit q <;> simp [Nat.testBit_xor, h]

/-- `applyZ` preserves the sum of squared amplitude magnitudes. -/
theorem sumNormSq_applyZ (s : StateVector) (q : ℕ) :
    (s.applyZ q).sumNormSq = s.sumNormSq := by
  unfold StateVector.sumNormSq StateVector.applyZ
  refine Finset.sum_congr rfl ?_
  intro i _
  by_cases h : i &&& (1 <<< q) ≠ 0 <;> simp [h, Complex.normSq_mul]

/-- `applyS` preserves the sum of squared amplitude magnitudes. -/
theorem sumNormSq_applyS (s : StateVector) (q : ℕ) (dagger : Bool) :
    (s.applyS q dagger).sumNormSq = s.sumNormSq := by
  unfold StateVector.sumNormSq StateVector.applyS
  refine Finset.sum_congr rfl ?_
  intro i _
  by_cases h : i &&& (1 <<< q) ≠ 0 <;> cases dagger <;>
    simp [h, Complex.normSq_mul, Complex.normSq_I]

/-- `applyT` preserves the sum of squared amplitude magnitudes. -/
theorem sumNormSq_applyT (s : StateVector) (q : ℕ) (dagger : Bool) :
    (s.applyT q dagger).sumNormSq = s.sumNormSq := by
  unfold StateVector.sumNormSq StateVector.applyT
  refine Finset.sum_congr rfl ?_
  intro i _
  by_cases h : i &&& (1 <<< q) ≠ 0 <;> cases dagger <;>
    simp [h, Complex.normSq_mul, normSq_exp_of_re_eq_zero]

/-- `applyRZ` preserves the sum of squared amplitude magnitudes. -/
theorem sumNormSq_applyRZ (s : StateVector) (q : ℕ) (theta : ℝ) :
    (s.applyRZ q theta).sumNormSq = s.sumNormSq := by
  unfold StateVector.sumNormSq StateVector.applyRZ
  refine Finset.sum_congr rfl ?_
  intro i _
  by_cases h : i &&& (1 <<< q) ≠ 0 <;>
    simp [h, Complex.normSq_mul, Complex.normSq_conj, normSq_exp_of_re_eq_zero]

/-- `applyCZ` preserves the sum of squared amplitude magnitudes. -/
theorem sumNormSq_applyCZ (s : StateVector) (control target : ℕ) :
    (s.applyCZ control target).sumNormSq = s.sumNormSq := by
  unfold StateVector.sumNormSq StateVector.applyCZ
  refine Finset.sum_congr rfl ?_
  intro i _
  by_cases h : i &&& (1 <<< control) ≠ 0 ∧ i &&& (1 <<< target) ≠ 0 <;>
    simp [h, Complex.normSq_mul]

/-- `applyX` preserves the sum of squared amplitude magnitudes. -/
theorem sumNormSq_applyX (s : StateVector) (q : ℕ) (hq : q < s.NumQubits) :
    (s.applyX q).sumNormSq = s.sumNormSq := by
  unfold StateVector.sumNormSq StateVector.applyX
  simp only [Nat.one_shiftLeft]
  have hbit : (2 : ℕ) ^ q < 2 ^ s.NumQubits := Nat.pow_lt_pow_right (by norm_num) hq
  have hpoint : ∀ i : ℕ,
      (if i &&& 2 ^ q = 0 then s.Amplitudes (i ||| 2 ^ q)
        else s.Amplitudes (i ^^^ 2 ^ q)) = s.Amplitudes (i ^^^ 2 ^ q) := by
    intro i
    by_cases h : i &&& 2 ^ q = 0
    · rw [if_pos h, lor_eq_xor_of_and_zero h]
    · rw [if_neg h]
  have hmem : ∀ i ∈ Finset.range (2 ^ s.NumQubits),
      i ^^^ 2 ^ q ∈ Finset.range (2 ^ s.NumQubits) := by
    intro i hi
    exact Finset.mem_range.mpr (Nat.xor_lt_two_pow (Finset.mem_range.mp hi) hbit)
  have hinv : ∀ i ∈ Finset.range (2 ^ s.NumQubits), (i ^^^ 2 ^ q) ^^^ 2 ^ q = i :=
    fun i _ => xor_two_pow_cancel i (2 ^ q)
  calc ∑ i ∈ Finset.range (2 ^ s.NumQubits),
        Complex.normSq (if i &&& 2 ^ q = 0 then s.Amplitudes (i ||| 2 ^ q)
          else s.Amplitudes (i ^^^ 2 ^ q))
      = ∑ i ∈ Finset.range (2 ^ s.NumQubits),
          Complex.normSq (s.Amplitudes (i ^^^ 2 ^ q)) := by
        exact Finset.sum_congr rfl fun i _ => by rw [hpoint]
    _ = ∑ i ∈ Finset.range (2 ^ s.NumQubits),
          Complex.normSq (s.Amplitudes i) :=
        sum_invol s.NumQubits (fun i => i ^^^ 2 ^ q) hmem hinv
          (fun j => Complex.normSq (s.Amplitudes j))

/-- `applyY` preserves the sum of squared amplitude magnitudes. -/
theorem sumNormSq_applyY (s : StateVector) (q : ℕ) (hq : q < s.NumQubits) :
    (s.applyY q).sumNormSq = s.sumNormSq := by
  unfold StateVector.sumNormSq StateVector.applyY
  simp only [Nat.one_shiftLeft]
  have hbit : (2 : ℕ) ^ q < 2 ^ s.NumQubits := Nat.pow_lt_pow_right (by norm_num) hq
  have hpoint : ∀ i : ℕ,
      Complex.normSq (if i &&& 2 ^ q = 0 then Complex.I * s.Amplitudes (i ||| 2 ^ q)
        else -Complex.I * s.Amplitudes (i ^^^ 2 ^ q)) =
        Complex.normSq (s.Amplitudes (i ^^^ 2 ^ q)) := by
    intro i
    by_cases h : i &&& 2 ^ q = 0
    · rw [if_pos h, lor_eq_xor_of_and_zero h]
      simp [Complex.normSq_mul, Complex.normSq_I]
    · rw [if_neg h]
      simp [Complex.normSq_mul, Complex.normSq_I]
  have hmem : ∀ i ∈ Finset.range (2 ^ s.NumQubits),
      i ^^^ 2 ^ q ∈ Finset.range (2 ^ s.NumQubits) := by
    intro i hi
    exact Finset.mem_range.mpr (Nat.xor_lt_two_pow (Finset.mem_range.mp hi) hbit)
  have hinv : ∀ i ∈ Finset.range (2 ^ s.NumQubits), (i ^^^ 2 ^ q) ^^^ 2 ^ q = i :=
    fun i _ => xor_two_pow_cancel i (2 ^ q)
  calc ∑ i ∈ Finset.range (2 ^ s.NumQubits),
        Complex.normSq (if i &&& 2 ^ q = 0 then Complex.I * s.Amplitudes (i ||| 2 ^ q)
          else -Complex.I * s.Amplitudes (i ^^^ 2 ^ q))
      = ∑ i ∈ Finset.range (2 ^ s.NumQubits),
          Complex.normSq (s.Amplitudes (i ^^^ 2 ^ q)) := by
        exact Finset.sum_congr rfl fun i _ => hpoint i
    _ = ∑ i ∈ Finset.range (2 ^ s.NumQubits),
          Complex.normSq (s.Amplitudes i) :=
        sum_invol s.NumQubits (fun i => i ^^^ 2 ^ q) hmem hinv
          (fun j => Complex.normSq (s.Amplitudes j))

theorem xor_right_comm (x a b : ℕ) : (x ^^^ a) ^^^ b = (x ^^^ b) ^^^ a := by
  rw [Nat.xor_assoc, Nat.xor_comm a b, ← Nat.xor_assoc]

/-- The RX rotation pair preserves the two squared magnitudes. -/
theorem normSq_RX_pair (t : ℝ) (x y : ℂ) :
    Complex.normSq (((Real.cos t : ℝ) : ℂ) * x +
        (((-Real.sin t : ℝ) : ℂ) * Complex.I) * y) +
      Complex.normSq ((((-Real.sin t : ℝ) : ℂ) * Complex.I) * x +
        ((Real.cos t : ℝ) : ℂ) * y) =
      Complex.normSq x + Complex.normSq y := by
  have hsc := Real.sin_sq_add_cos_sq t
  simp only [Complex.normSq_apply, Complex.add_re, Complex.add_im, Complex.mul_re,
    Complex.mul_im, Complex.ofReal_re, Complex.ofReal_im, Complex.I_re, Complex.I_im]
  linear_combination (x.re ^ 2 + x.im ^ 2 + y.re ^ 2 + y.im ^ 2) * hsc

/-- The RY rotation pair preserves the two squared magnitudes. -/
theorem normSq_RY_pair (t : ℝ) (x y : ℂ) :
    Complex.normSq (((Real.cos t : ℝ) : ℂ) * x - ((Real.sin t : ℝ) : ℂ) * y) +
      Complex.normSq (((Real.sin t : ℝ) : ℂ) * x + ((Real.cos t : ℝ) : ℂ) * y) =
      Complex.normSq x + Complex.normSq y := by
  have hsc := Real.sin_sq_add_cos_sq t
  simp only [Complex.normSq_apply, Complex.add_re, Complex.add_im, Complex.sub_re,
    Complex.sub_im, Complex.mul_re, Complex.mul_im, Complex.ofReal_re,
    Complex.ofReal_im]
  linear_combination (x.re ^ 2 + x.im ^ 2 + y.re ^ 2 + y.im ^ 2) * hsc

/-- `applyRX` preserves the sum of squared amplitude magnitudes. -/
theorem sumNormSq_applyRX (s : StateVector) (q : ℕ) (theta : ℝ)
    (hq : q < s.NumQubits) :
    (s.applyRX q theta).sumNormSq = s.sumNormSq := by
  unfold StateVector.sumNormSq StateVector.applyRX
  simp only [Nat.one_shiftLeft]
  rw [sum_split_pair s.NumQubits q hq, sum_split_pair s.NumQubits q hq]
  refine Finset.sum_congr rfl ?_
  intro i hi
  obtain ⟨_, hlow⟩ := Finset.mem_filter.mp hi
  rw [if_pos hlow, if_neg (xor_two_pow_and_ne_zero hlow),
    lor_eq_xor_of_and_zero hlow, xor_two_pow_cancel]
  exact normSq_RX_pair _ _ _

/-- `applyRY` preserves the sum of squared amplitude magnitudes. -/
theorem sumNormSq_applyRY (s : StateVector) (q : ℕ) (theta : ℝ)
    (hq : q < s.NumQubits) :
    (s.applyRY q theta).sumNormSq = s.sumNormSq := by
  unfold StateVector.sumNormSq StateVector.applyRY
  simp only [Nat.one_shiftLeft]
  rw [sum_split_pair s.NumQubits q hq, sum_split_pair s.NumQubits q hq]
  refine Finset.sum_congr rfl ?_
  intro i hi
  obtain ⟨_, hlow⟩ := Finset.mem_filter.mp hi
  rw [if_pos hlow, if_neg (xor_two_pow_and_ne_zero hlow),
    lor_eq_xor_of_and_zero hlow, xor_two_pow_cancel]
  exact normSq_RY_pair _ _ _

/-- `applyCX` preserves the sum of squared amplitude magnitudes when the
control and target are distinct in-range qubits. -/
theorem sumNormSq_applyCX (s : StateVector) (control target : ℕ)
    (_hc : control < s.NumQubits) (ht : target < s.NumQubits)
    (hne : control ≠ target) :
    (s.applyCX control target).sumNormSq = s.sumNormSq := by
  unfold StateVector.sumNormSq StateVector.applyCX
  simp only [Nat.one_shiftLeft]
  have hbit : (2 : ℕ) ^ target < 2 ^ s.NumQubits :=
    Nat.pow_lt_pow_right (by norm_num) ht
  have hpoint : ∀ i : ℕ,
      (if i &&& 2 ^ control ≠ 0 then
        (if i &&& 2 ^ target = 0 then s.Amplitudes (i ||| 2 ^ target)
          else s.Amplitudes (i ^^^ 2 ^ target))
        else s.Amplitudes i) =
      s.Amplitudes (if i &&& 2 ^ control ≠ 0 then i ^^^ 2 ^ target else i) := by
    intro i
    by_cases hcb : i &&& 2 ^ control ≠ 0
    · rw [if_pos hcb, if_pos hcb]
      by_cases htb : i &&& 2 ^ target = 0
      · rw [if_pos htb, lor_eq_xor_of_and_zero htb]
      · rw [if_neg htb]
    · rw [if_neg hcb, if_neg hcb]
  have hmem : ∀ i ∈ Finset.range (2 ^ s.NumQubits),
      (if i &&& 2 ^ control ≠ 0 then i ^^^ 2 ^ target else i) ∈
        Finset.range (2 ^ s.NumQubits) := by
    intro i hi
    by_cases hcb : i &&& 2 ^ control ≠ 0
    · rw [if_pos hcb]
      exact Finset.mem_range.mpr (Nat.xor_lt_two_pow (Finset.mem_range.mp hi) hbit)
    · rwa [if_neg hcb]
  have hinv : ∀ i ∈ Finset.range (2 ^ s.NumQubits),
      (if (if i &&& 2 ^ control ≠ 0 then i ^^^ 2 ^ target else i) &&& 2 ^ control ≠ 0
        then (if i &&& 2 ^ control ≠ 0 then i ^^^ 2 ^ target else i) ^^^ 2 ^ target
        else (if i &&& 2 ^ control ≠ 0 then i ^^^ 2 ^ target else i)) = i := by
    intro i _
    by_cases hcb : i &&& 2 ^ control ≠ 0
    · rw [if_pos hcb]
      have hsame : (i ^^^ 2 ^ target) &&& 2 ^ control = i &&& 2 ^ control :=
        and_xor_two_pow_of_ne (Ne.symm hne)
      rw [if_pos (hsame ▸ hcb), xor_two_pow_cancel]
    · rw [if_neg hcb, if_neg hcb]
  calc ∑ i ∈ Finset.range (2 ^ s.NumQubits),
        Complex.normSq (if i &&& 2 ^ control ≠ 0 then
          (if i &&& 2 ^ target = 0 then s.Amplitudes (i ||| 2 ^ target)
            else s.Amplitudes (i ^^^ 2 ^ target))
          else s.Amplitudes i)
      = ∑ i ∈ Finset.range (2 ^ s.NumQubits),
          Complex.normSq (s.Amplitudes
            (if i &&& 2 ^ control ≠ 0 then i ^^^ 2 ^ target else i)) :=
        Finset.sum_congr rfl fun i _ => by rw [hpoint]
    _ = ∑ i ∈ Finset.range (2 ^ s.NumQubits),
          Complex.normSq (s.Amplitudes i) :=
        sum_invol s.NumQubits
          (fun i => if i &&& 2 ^ control ≠ 0 then i ^^^ 2 ^ target else i)
          hmem hinv (fun j => Complex.normSq (s.Amplitudes j))

/-- `applySWAP` preserves the sum of squared amplitude magnitudes when the
two qubits are distinct and in range. -/
theorem sumNormSq_applySWAP (s : StateVector) (q1 q2 : ℕ)
    (h1 : q1 < s.NumQubits) (h2 : q2 < s.NumQubits) (hne : q1 ≠ q2) :
    (s.applySWAP q1 q2).sumNormSq = s.sumNormSq := by
  unfold StateVector.sumNormSq StateVector.applySWAP
  simp only [Nat.one_shiftLeft]
  have hbit1 : (2 : ℕ) ^ q1 < 2 ^ s.NumQubits := Nat.pow_lt_pow_right (by norm_num) h1
  have hbit2 : (2 : ℕ) ^ q2 < 2 ^ s.NumQubits := Nat.pow_lt_pow_right (by norm_num) h2
  have hpoint : ∀ i : ℕ,
      (if i &&& 2 ^ q1 ≠ 0 ∧ i &&& 2 ^ q2 = 0 then
          s.Amplitudes ((i ^^^ 2 ^ q1) ||| 2 ^ q2)
        else if i &&& 2 ^ q1 = 0 ∧ i &&& 2 ^ q2 ≠ 0 then
          s.Amplitudes ((i ^^^ 2 ^ q2) ||| 2 ^ q1)
        else s.Amplitudes i) =
      s.Amplitudes (if (i &&& 2 ^ q1 ≠ 0 ∧ i &&& 2 ^ q2 = 0) ∨
          (i &&& 2 ^ q1 = 0 ∧ i &&& 2 ^ q2 ≠ 0) then
        (i ^^^ 2 ^ q1) ^^^ 2 ^ q2 else i) := by
    intro i
    by_cases hA : i &&& 2 ^ q1 = 0 <;> by_cases hB : i &&& 2 ^ q2 = 0
    · rw [if_neg (by simp [hA]), if_neg (by simp [hB]), if_neg (by simp [hA, hB])]
    · have hor : (i &&& 2 ^ q1 ≠ 0 ∧ i &&& 2 ^ q2 = 0) ∨
          (i &&& 2 ^ q1 = 0 ∧ i &&& 2 ^ q2 ≠ 0) := Or.inr ⟨hA, hB⟩
      rw [if_neg (by simp [hA]), if_pos ⟨hA, hB⟩, if_pos hor]
      have hxb : (i ^^^ 2 ^ q2) &&& 2 ^ q1 = 0 :=
        (and_xor_two_pow_of_ne (Ne.symm hne)).trans hA
      rw [lor_eq_xor_of_and_zero hxb, xor_right_comm]
    · have hor : (i &&& 2 ^ q1 ≠ 0 ∧ i &&& 2 ^ q2 = 0) ∨
          (i &&& 2 ^ q1 = 0 ∧ i &&& 2 ^ q2 ≠ 0) := Or.inl ⟨hA, hB⟩
      rw [if_pos ⟨hA, hB⟩, if_pos hor]
      have hxb : (i ^^^ 2 ^ q1) &&& 2 ^ q2 = 0 :=
        (and_xor_two_pow_of_ne hne).trans hB
      rw [lor_eq_xor_of_and_zero hxb]
    · rw [if_neg (by simp [hB]), if_neg (by simp [hA]), if_neg (by simp [hA, hB])]
  have hmem : ∀ i ∈ Finset.range (2 ^ s.NumQubits),
      (if (i &&& 2 ^ q1 ≠ 0 ∧ i &&& 2 ^ q2 = 0) ∨
          (i &&& 2 ^ q1 = 0 ∧ i &&& 2 ^ q2 ≠ 0) then
        (i ^^^ 2 ^ q1) ^^^ 2 ^ q2 else i) ∈ Finset.range (2 ^ s.NumQubits) := by
    intro i hi
    by_cases hc : (i &&& 2 ^ q1 ≠ 0 ∧ i &&& 2 ^ q2 = 0) ∨
        (i &&& 2 ^ q1 = 0 ∧ i &&& 2 ^ q2 ≠ 0)
    · rw [if_pos hc]
      exact Finset.mem_range.mpr
        (Nat.xor_lt_two_pow
          (Nat.xor_lt_two_pow (Finset.mem_range.mp hi) hbit1) hbit2)
    · rwa [if_neg hc]
  have hswapbits : ∀ i : ℕ,
      (((i ^^^ 2 ^ q1) ^^^ 2 ^ q2) &&& 2 ^ q1 = 0 ↔ ¬(i &&& 2 ^ q1 = 0)) ∧
      (((i ^^^ 2 ^ q1) ^^^ 2 ^ q2) &&& 2 ^ q2 = 0 ↔ ¬(i &&& 2 ^ q2 = 0)) := by
    intro i
    constructor
    · rw [and_xor_two_pow_of_ne (Ne.symm hne)]
      exact and_xor_two_pow_self i q1
    · rw [and_xor_two_pow_self (i ^^^ 2 ^ q1) q2, and_xor_two_pow_of_ne hne]
  have hinv : ∀ i ∈ Finset.range (2 ^ s.NumQubits),
      (if ((if (i &&& 2 ^ q1 ≠ 0 ∧ i &&& 2 ^ q2 = 0) ∨
              (i &&& 2 ^ q1 = 0 ∧ i &&& 2 ^ q2 ≠ 0) then
            (i ^^^ 2 ^ q1) ^^^ 2 ^ q2 else i) &&& 2 ^ q1 ≠ 0 ∧
            (if (i &&& 2 ^ q1 ≠ 0 ∧ i &&& 2 ^ q2 = 0) ∨
              (i &&& 2 ^ q1 = 0 ∧ i &&& 2 ^ q2 ≠ 0) then
            (i ^^^ 2 ^ q1) ^^^ 2 ^ q2 else i) &&& 2 ^ q2 = 0) ∨
          ((if (i &&& 2 ^ q1 ≠ 0 ∧ i &&& 2 ^ q2 = 0) ∨
              (i &&& 2 ^ q1 = 0 ∧ i &&& 2 ^ q2 ≠ 0) then
            (i ^^^ 2 ^ q1) ^^^ 2 ^ q2 else i) &&& 2 ^ q1 = 0 ∧
            (if (i &&& 2 ^ q1 ≠ 0 ∧ i &&& 2 ^ q2 = 0) ∨
              (i &&& 2 ^ q1 = 0 ∧ i &&& 2 ^ q2 ≠ 0) then
            (i ^^^ 2 ^ q1) ^^^ 2 ^ q2 else i) &&& 2 ^ q2 ≠ 0) then
        ((if (i &&& 2 ^ q1 ≠ 0 ∧ i &&& 2 ^ q2 = 0) ∨
              (i &&& 2 ^ q1 = 0 ∧ i &&& 2 ^ q2 ≠ 0) then
            (i ^^^ 2 ^ q1) ^^^ 2 ^ q2 else i) ^^^ 2 ^ q1) ^^^ 2 ^ q2
        else (if (i &&& 2 ^ q1 ≠ 0 ∧ i &&& 2 ^ q2 = 0) ∨
              (i &&& 2 ^ q1 = 0 ∧ i &&& 2 ^ q2 ≠ 0) then
            (i ^^^ 2 ^ q1) ^^^ 2 ^ q2 else i)) = i := by
    intro i _
    by_cases hc : (i &&& 2 ^ q1 ≠ 0 ∧ i &&& 2 ^ q2 = 0) ∨
        (i &&& 2 ^ q1 = 0 ∧ i &&& 2 ^ q2 ≠ 0)
    · rw [if_pos hc]
      obtain ⟨hb1, hb2⟩ := hswapbits i
      have hcondj : (((i ^^^ 2 ^ q1) ^^^ 2 ^ q2) &&& 2 ^ q1 ≠ 0 ∧
            ((i ^^^ 2 ^ q1) ^^^ 2 ^ q2) &&& 2 ^ q2 = 0) ∨
          (((i ^^^ 2 ^ q1) ^^^ 2 ^ q2) &&& 2 ^ q1 = 0 ∧
            ((i ^^^ 2 ^ q1) ^^^ 2 ^ q2) &&& 2 ^ q2 ≠ 0) := by
        rcases hc with ⟨hA, hB⟩ | ⟨hA, hB⟩
        · exact Or.inr ⟨hb1.mpr hA, fun h => (hb2.mp h) hB⟩
        · exact Or.inl ⟨fun h => (hb1.mp h) hA, hb2.mpr hB⟩
      rw [if_pos hcondj]
      rw [xor_right_comm ((i ^^^ 2 ^ q1) ^^^ 2 ^ q2) (2 ^ q1) (2 ^ q2)]
      rw [xor_two_pow_cancel (i ^^^ 2 ^ q1) (2 ^ q2)]
      rw [xor_two_pow_cancel i (2 ^ q1)]
    · rw [if_neg hc, if_neg hc]
  calc ∑ i ∈ Finset.range (2 ^ s.NumQubits),
        Complex.normSq (if i &&& 2 ^ q1 ≠ 0 ∧ i &&& 2 ^ q2 = 0 then
            s.Amplitudes ((i ^^^ 2 ^ q1) ||| 2 ^ q2)
          else if i &&& 2 ^ q1 = 0 ∧ i &&& 2 ^ q2 ≠ 0 then
            s.Amplitudes ((i ^^^ 2 ^ q2) ||| 2 ^ q1)
          else s.Amplitudes i)
      = ∑ i ∈ Finset.range (2 ^ s.NumQubits),
          Complex.normSq (s.Amplitudes
            (if (i &&& 2 ^ q1 ≠ 0 ∧ i &&& 2 ^ q2 = 0) ∨
                (i &&& 2 ^ q1 = 0 ∧ i &&& 2 ^ q2 ≠ 0) then
              (i ^^^ 2 ^ q1) ^^^ 2 ^ q2 else i)) :=
        Finset.sum_congr rfl fun i _ => by rw [hpoint]
    _ = ∑ i ∈ Finset.range (2 ^ s.NumQubits),
          Complex.normSq (s.Amplitudes i) :=
        sum_invol s.NumQubits
          (fun i => if (i &&& 2 ^ q1 ≠ 0 ∧ i &&& 2 ^ q2 = 0) ∨
              (i &&& 2 ^ q1 = 0 ∧ i &&& 2 ^ q2 ≠ 0) then
            (i ^^^ 2 ^ q1) ^^^ 2 ^ q2 else i)
          hmem hinv (fun j => Complex.normSq (s.Amplitudes j))

/-- The gate type strings dispatched by `ApplyGate` to unitary transforms
(the claim's kind list, with both source spellings of the adjoints). -/
def unitaryGateKinds : List String :=
  ["H", "X", "Y", "Z", "S", "SDG", "Sdg", "T", "TDG", "Tdg",
   "RX", "RY", "RZ", "P", "U1", "CX", "CZ", "SWAP"]

/-- C10: every unitary gate kind applied through `ApplyGate` to distinct
qubit indices smaller than `NumQubits` preserves the sum of squared
amplitude magnitudes exactly. -/
theorem C10_ApplyGate_unitary_preserves_norm (s : StateVector) (gt : String)
    (t c : ℕ) (params : List ℝ) (hgt : gt ∈ unitaryGateKinds)
    (ht : t < s.NumQubits) (hc : c < s.NumQubits) (hne : c ≠ t) :
    (s.ApplyGate gt (t : ℤ) (c : ℤ) params).sumNormSq = s.sumNormSq := by
  have hcle : (0 : ℤ) ≤ (c : ℤ) := Int.natCast_nonneg c
  fin_cases hgt
  · exact sumNormSq_applyH s t ht
  · exact sumNormSq_applyX s t ht
  · exact sumNormSq_applyY s t ht
  · exact sumNormSq_applyZ s t
  · exact sumNormSq_applyS s t false
  · exact sumNormSq_applyS s t true
  · exact sumNormSq_applyS s t true
  · exact sumNormSq_applyT s t false
  · exact sumNormSq_applyT s t true
  · exact sumNormSq_applyT s t true
  · exact sumNormSq_applyRX s t (params.headD 0) ht
  · exact sumNormSq_applyRY s t (params.headD 0) ht
  · exact sumNormSq_applyRZ s t (params.headD 0)
  · exact sumNormSq_applyRZ s t (params.headD 0)
  · exact sumNormSq_applyRZ s t (params.headD 0)
  · show ((if (0 : ℤ) ≤ (c : ℤ) then s.applyCX (c : ℤ).toNat (t : ℤ).toNat
        else s)).sumNormSq = s.sumNormSq
    rw [if_pos hcle]
    exact sumNormSq_applyCX s c t hc ht hne
  · show ((if (0 : ℤ) ≤ (c : ℤ) then s.applyCZ (c : ℤ).toNat (t : ℤ).toNat
        else s)).sumNormSq = s.sumNormSq
    rw [if_pos hcle]
    exact sumNormSq_applyCZ s c t
  · show ((if (0 : ℤ) ≤ (c : ℤ) then s.applySWAP (c : ℤ).toNat (t : ℤ).toNat
        else s)).sumNormSq = s.sumNormSq
    rw [if_pos hcle]
    exact sumNormSq_applySWAP s c t hc ht hne

/-- Witness for C10: applying CX with control 0 and target 1 on a fresh
two-qubit state preserves the sum of squared magnitudes. -/
theorem C10_ApplyGate_unitary_preserves_norm_witness :
    ((NewStateVector 2).ApplyGate "CX" ((1 : ℕ) : ℤ) ((0 : ℕ) : ℤ) []).sumNormSq =
      (NewStateVector 2).sumNormSq :=
  C10_ApplyGate_unitary_preserves_norm (NewStateVector 2) "CX" 1 0 []
    (by simp [unitaryGateKinds]) (by norm_num [NewStateVector])
    (by norm_num [NewStateVector]) (by norm_num)

/-! ## CircuitDAG and the QASM decoder (claims C3, C4, C5)

The Go regexps of the decoder are modelled by deterministic greedy
matchers over character lists.  At every joint of these patterns the
adjacent character classes are disjoint (word characters vs whitespace vs
punctuation), so greedy maximal munch coincides with the regexp
backtracking semantics on all inputs.  `map[string]*DAGNode` is modelled
as an insertion-ordered list keyed by `ID` (Go map iteration order is
unspecified; the claims never depend on it), and the `rootNodes` cache is
omitted (it only feeds `TopologicalSort`, which no claim touches). -/

/-- `DAGNode` (the DAG view of one operation).  The source field `Type` is
a Lean keyword and is named `Ty`; decode-side float64 params are exact
rationals. -/
structure DAGNode where
  ID : String
  Ty : String
  Target : ℤ
  Control : ℤ
  Controls : List ℤ
  MeasureSource : ℤ
  Step : ℤ
  Params : List ℚ
  IsDagger : Bool
  IsReset : Bool
  ClassicalControl : ℤ
  IsNoise : Bool
  NoiseType : String
  Dependencies : List String
deriving DecidableEq

/-- `CircuitDAG`. -/
structure CircuitDAG where
  Nodes : List DAGNode
  NumQubits : ℤ
  NumCbits : ℤ
deriving DecidableEq

/-- `NewCircuitDAG`. -/
def NewCircuitDAG : CircuitDAG := ⟨[], 0, 0⟩

/-- `generateNodeID`: `fmt.Sprintf("%s_q%d_s%d", gateType, target, step)`. -/
def generateNodeID (gateType : String) (target step : ℤ) : String :=
  gateType ++ "_q" ++ toString target ++ "_s" ++ toString step

/-- `AddNode`: insert (or overwrite by ID) and grow the derived qubit and
classical-bit counts. -/
def CircuitDAG.AddNode (dag : CircuitDAG) (node0 : DAGNode) : CircuitDAG :=
  let node := if node0.ID = "" then
    { node0 with ID := generateNodeID node0.Ty node0.Target node0.Step } else node0
  let nodes := if dag.Nodes.any (fun n => n.ID == node.ID) then
    dag.Nodes.map (fun n => if n.ID == node.ID then node else n)
    else dag.Nodes ++ [node]
  let maxQubit := max (node.Controls.foldl max (max node.Target node.Control))
    node.MeasureSource
  let numQubits := if maxQubit + 1 > dag.NumQubits then maxQubit + 1 else dag.NumQubits
  let ncb1 := if node.ClassicalControl ≥ dag.NumCbits then node.ClassicalControl + 1
    else dag.NumCbits
  let ncb2 := if node.Ty = "MEASURE" ∧ node.Target + 1 > ncb1 then node.Target + 1
    else ncb1
  let ncb3 := if 0 ≤ node.MeasureSource ∧ node.MeasureSource + 1 > ncb2 then
    node.MeasureSource + 1 else ncb2
  ⟨nodes, numQubits, ncb3⟩

/-- `RemoveNode`: delete by ID and drop the ID from every dependency list. -/
def CircuitDAG.RemoveNode (dag : CircuitDAG) (nodeID : String) : CircuitDAG :=
  let kept := dag.Nodes.filter (fun n => !(n.ID == nodeID))
  let cleaned := kept.map (fun n =>
    { n with Dependencies := n.Dependencies.filter (fun d => !(d == nodeID)) })
  { dag with Nodes := cleaned }

/-- `GetNodeAt`: the node at the given step whose target, control,
measure-source or one of its multi-controls equals the qubit. -/
def CircuitDAG.GetNodeAt (dag : CircuitDAG) (step qubit : ℤ) : Option DAGNode :=
  dag.Nodes.find? (fun node =>
    node.Step == step &&
      (node.Target == qubit || node.Control == qubit ||
        node.MeasureSource == qubit || node.Controls.contains qubit))

/-- `CanPlaceGateAt`: false when any of the qubits is occupied (per
`GetNodeAt`) by a barrier or by a node with a control, multi-controls, or a
measure source. -/
def CircuitDAG.CanPlaceGateAt (dag : CircuitDAG) (step : ℤ) (qubits : List ℤ) : Bool :=
  qubits.all fun qubit =>
    match dag.GetNodeAt step qubit with
    | none => true
    | some node =>
      !(node.Ty == "BARRIER") &&
        !(decide (0 ≤ node.Control) || !node.Controls.isEmpty ||
          decide (0 ≤ node.MeasureSource))

/-- `AddBarrier`: replace any barrier at this step, then add a fresh
barrier node (target `-1`, spanning all qubits). -/
def CircuitDAG.AddBarrier (dag : CircuitDAG) (step : ℤ) : CircuitDAG :=
  let toRemove := (dag.Nodes.filter
    (fun n => n.Step == step && n.Ty == "BARRIER")).map (fun n => n.ID)
  let dag1 := toRemove.foldl (fun d id => d.RemoveNode id) dag
  dag1.AddNode ⟨generateNodeID "BARRIER" (-1) step, "BARRIER", -1, -1, [], -1,
    step, [], false, false, -1, false, "", []⟩

/-! ### Greedy matchers for the decoder's regexps -/

/-- Expect a literal character sequence; return the remainder. -/
def dropLit : List Char → List Char → Option (List Char)
  | [], cs => some cs
  | _ :: _, [] => none
  | l :: ls, c :: cs => if c = l then dropLit ls cs else none

/-- `\s*`. -/
def dropSpaces (cs : List Char) : List Char := cs.dropWhile isSpaceChar

/-- `\s+`. -/
def dropSpaces1 (cs : List Char) : Option (List Char) :=
  match cs with
  | c :: rest => if isSpaceChar c then some (rest.dropWhile isSpaceChar) else none
  | [] => none

/-- `(\w+)`. -/
def word1 (cs : List Char) : Option (List Char × List Char) :=
  let (w, r) := takeWhileSplit isWordChar cs
  if w = [] then none else some (w, r)

/-- `(\d+)`. -/
def digits1 (cs : List Char) : Option (List Char × List Char) :=
  let (d, r) := takeWhileSplit isDigitChar cs
  if d = [] then none else some (d, r)

/-- `q\[(\d+)\]`. -/
def qIdx (cs : List Char) : Option (ℕ × List Char) := do
  let r1 ← dropLit ['q', '['] cs
  let (d, r2) ← digits1 r1
  let r3 ← dropLit [']'] r2
  pure (natOfDigits d, r3)

/-- `;?$`. -/
def endOpt (cs : List Char) : Bool :=
  match cs with
  | [] => true
  | [';'] => true
  | _ => false

/-- The pi alternative of `paramPattern`: `\d*\.?\d*\*?pi(?:/\d+\.?\d*)?`. -/
def matchPiAlt (cs : List Char) : Option (List Char × List Char) :=
  let (d1, r1) := takeWhileSplit isDigitChar cs
  let dotSplit : List Char × List Char :=
    match r1 with
    | '.' :: r => (['.'], r)
    | _ => ([], r1)
  let (d2, r3) := takeWhileSplit isDigitChar dotSplit.2
  let starSplit : List Char × List Char :=
    match r3 with
    | '*' :: r => (['*'], r)
    | _ => ([], r3)
  match starSplit.2 with
  | 'p' :: 'i' :: r5 =>
    let stem := d1 ++ dotSplit.1 ++ d2 ++ starSplit.1 ++ ['p', 'i']
    match r5 with
    | '/' :: r6 =>
      match digits1 r6 with
      | some (e1, r7) =>
        let edotSplit : List Char × List Char :=
          match r7 with
          | '.' :: r => (['.'], r)
          | _ => ([], r7)
        let (e2, r9) := takeWhileSplit isDigitChar edotSplit.2
        some (stem ++ ['/'] ++ e1 ++ edotSplit.1 ++ e2, r9)
      | none => some (stem, '/' :: r6)
    | _ => some (stem, r5)
  | _ => none

/-- The plain-number alternative of `paramPattern`:
`\d+\.?\d*(?:[eE][+\-]?\d+)?`. -/
def matchNumAlt (cs : List Char) : Option (List Char × List Char) :=
  match digits1 cs with
  | none => none
  | some (d1, r1) =>
    let dotSplit : List Char × List Char :=
      match r1 with
      | '.' :: r => (['.'], r)
      | _ => ([], r1)
    let (d2, r3) := takeWhileSplit isDigitChar dotSplit.2
    let stem := d1 ++ dotSplit.1 ++ d2
    match r3 with
    | e :: r4 =>
      if e = 'e' ∨ e = 'E' then
        let sgnSplit : List Char × List Char :=
          match r4 with
          | '-' :: r => (['-'], r)
          | '+' :: r => (['+'], r)
          | _ => ([], r4)
        match digits1 sgnSplit.2 with
        | some (ed, r6) => some (stem ++ [e] ++ sgnSplit.1 ++ ed, r6)
        | none => some (stem, r3)
      else some (stem, r3)
    | [] => some (stem, [])

/-- `paramPattern`: `-?(?:A|B)` with the pi alternative tried first, as the
regexp engine does. -/
def matchParamPattern (cs : List Char) : Option (List Char × List Char) :=
  let sgnSplit : List Char × List Char :=
    match cs with
    | '-' :: r => (['-'], r)
    | _ => ([], cs)
  match matchPiAlt sgnSplit.2 with
  | some (a, r) => some (sgnSplit.1 ++ a, r)
  | none =>
    match matchNumAlt sgnSplit.2 with
    | some (a, r) => some (sgnSplit.1 ++ a, r)
    | none => none

/-- The `(?:\s*,\s*P)*` loop of the parameter-list capture group. -/
def matchParamListTailAux : ℕ → List Char → List Char × List Char
  | 0, cs => ([], cs)
  | fuel + 1, cs =>
    let (s1, r1) := takeWhileSplit isSpaceChar cs
    match r1 with
    | ',' :: r2 =>
      let (s2, r3) := takeWhileSplit isSpaceChar r2
      match matchParamPattern r3 with
      | some (p, r4) =>
        let (rest, r5) := matchParamListTailAux fuel r4
        (s1 ++ [','] ++ s2 ++ p ++ rest, r5)
      | none => ([], cs)
    | _ => ([], cs)

/-- The capture group `(P(?:\s*,\s*P)*)` of `singleGateParamRegex`. -/
def matchParamList (cs : List Char) : Option (List Char × List Char) := do
  let (p, r) ← matchParamPattern cs
  let (rest, r2) := matchParamListTailAux r.length r
  pure (p ++ rest, r2)

/-- `singleGateRegex`: `^(\w+)\s+q\[(\d+)\];?$`. -/
def matchSingleGate (line : List Char) : Option (List Char × ℕ) := do
  let (w, r1) ← word1 line
  let r2 ← dropSpaces1 r1
  let (t, r3) ← qIdx r2
  if endOpt r3 then pure (w, t) else none

/-- `singleGateParamRegex`: `^(\w+)\s*\(\s*(P(,P)*)\s*\)\s+q\[(\d+)\];?$`. -/
def matchSingleGateParam (line : List Char) :
    Option (List Char × List Char × ℕ) := do
  let (w, r1) ← word1 line
  let r2 ← dropLit ['('] (dropSpaces r1)
  let (ps, r3) ← matchParamList (dropSpaces r2)
  let r4 ← dropLit [')'] (dropSpaces r3)
  let r5 ← dropSpaces1 r4
  let (t, r6) ← qIdx r5
  if endOpt r6 then pure (w, ps, t) else none

/-- `twoQubitRegex`: `^(\w+)\s+q\[(\d+)\],\s*q\[(\d+)\];?$`. -/
def matchTwoQubit (line : List Char) : Option (List Char × ℕ × ℕ) := do
  let (w, r1) ← word1 line
  let r2 ← dropSpaces1 r1
  let (a, r3) ← qIdx r2
  let r4 ← dropLit [','] r3
  let (b, r5) ← qIdx (dropSpaces r4)
  if endOpt r5 then pure (w, a, b) else none

/-- `twoQubitParamRegex`: `^(\w+)\s*\(\s*(P)\s*\)\s+q\[(\d+)\],\s*q\[(\d+)\];?$`. -/
def matchTwoQubitParam (line : List Char) :
    Option (List Char × List Char × ℕ × ℕ) := do
  let (w, r1) ← word1 line
  let r2 ← dropLit ['('] (dropSpaces r1)
  let (p, r3) ← matchParamPattern (dropSpaces r2)
  let r4 ← dropLit [')'] (dropSpaces r3)
  let r5 ← dropSpaces1 r4
  let (a, r6) ← qIdx r5
  let r7 ← dropLit [','] r6
  let (b, r8) ← qIdx (dropSpaces r7)
  if endOpt r8 then pure (w, p, a, b) else none

/-- `threeQubitRegex`: `^(\w+)\s+q\[(\d+)\],\s*q\[(\d+)\],\s*q\[(\d+)\];?$`. -/
def matchThreeQubit (line : List Char) : Option (List Char × ℕ × ℕ × ℕ) := do
  let (w, r1) ← word1 line
  let r2 ← dropSpaces1 r1
  let (a, r3) ← qIdx r2
  let r4 ← dropLit [','] r3
  let (b, r5) ← qIdx (dropSpaces r4)
  let r6 ← dropLit [','] r5
  let (c, r7) ← qIdx (dropSpaces r6)
  if endOpt r7 then pure (w, a, b, c) else none

/-- `measureRegex`: `^measure\s+q\[(\d+)\]\s*->\s*(\w+)\[(\d+)\];?$`. -/
def matchMeasure (line : List Char) : Option (ℕ × List Char × List Char) := do
  let r1 ← dropLit "measure".toList line
  let r2 ← dropSpaces1 r1
  let (src, r3) ← qIdx r2
  let r4 ← dropLit ['-', '>'] (dropSpaces r3)
  let (reg, r5) ← word1 (dropSpaces r4)
  let r6 ← dropLit ['['] r5
  let (d, r7) ← digits1 r6
  let r8 ← dropLit [']'] r7
  if endOpt r8 then pure (src, reg, d) else none

/-- `resetRegex`: `^reset\s+q\[(\d+)\];?$`. -/
def matchReset (line : List Char) : Option ℕ := do
  let r1 ← dropLit "reset".toList line
  let r2 ← dropSpaces1 r1
  let (t, r3) ← qIdx r2
  if endOpt r3 then pure t else none

/-- `barrierRegex.MatchString`: `^barrier\s+`. -/
def matchBarrier (line : List Char) : Bool :=
  match dropLit "barrier".toList line with
  | some r => (dropSpaces1 r).isSome
  | none => false

/-- `ifRegex`:
`^if\s*\(\s*(\w+)(?:\[(\d+)\])?\s*==\s*(\d+)\s*\)\s+(\w+)\s+q\[(\d+)\];?$`.
Captures (register, optional bit index digits, compared value digits, gate
word, target qubit). -/
def matchIf (line : List Char) :
    Option (List Char × Option (List Char) × List Char × List Char × ℕ) := do
  let r1 ← dropLit "if".toList line
  let r2 ← dropLit ['('] (dropSpaces r1)
  let (reg, r3) ← word1 (dropSpaces r2)
  let bitSplit : Option (List Char) × List Char :=
    match r3 with
    | '[' :: r4 =>
      match digits1 r4 with
      | some (d, r5) =>
        match r5 with
        | ']' :: r6 => (some d, r6)
        | _ => (none, r3)
      | none => (none, r3)
    | _ => (none, r3)
  let r7 ← dropLit ['=', '='] (dropSpaces bitSplit.2)
  let (v, r8) ← digits1 (dropSpaces r7)
  let r9 ← dropLit [')'] (dropSpaces r8)
  let r10 ← dropSpaces1 r9
  let (g, r11) ← word1 r10
  let r12 ← dropSpaces1 r11
  let (t, r13) ← qIdx r12
  if endOpt r13 then pure (reg, bitSplit.1, v, g, t) else none

/-- `ifParamRegex`: as `ifRegex` but the gate carries a `(P)` parameter. -/
def matchIfParam (line : List Char) :
    Option (List Char × Option (List Char) × List Char × List Char × List Char × ℕ) := do
  let r1 ← dropLit "if".toList line
  let r2 ← dropLit ['('] (dropSpaces r1)
  let (reg, r3) ← word1 (dropSpaces r2)
  let bitSplit : Option (List Char) × List Char :=
    match r3 with
    | '[' :: r4 =>
      match digits1 r4 with
      | some (d, r5) =>
        match r5 with
        | ']' :: r6 => (some d, r6)
        | _ => (none, r3)
      | none => (none, r3)
    | _ => (none, r3)
  let r7 ← dropLit ['=', '='] (dropSpaces bitSplit.2)
  let (v, r8) ← digits1 (dropSpaces r7)
  let r9 ← dropLit [')'] (dropSpaces r8)
  let r10 ← dropSpaces1 r9
  let (g, r11) ← word1 r10
  let r12 ← dropLit ['('] (dropSpaces r11)
  let (p, r13) ← matchParamPattern (dropSpaces r12)
  let r14 ← dropLit [')'] (dropSpaces r13)
  let r15 ← dropSpaces1 r14
  let (t, r16) ← qIdx r15
  if endOpt r16 then pure (reg, bitSplit.1, v, g, p, t) else none

/-- Anchored `qreg\s+(\w+)\[(\d+)\]` / `creg\s+(\w+)\[(\d+)\]`
(`FindStringSubmatch` is unanchored; see `regSearch`). -/
def matchRegDecl (kw : List Char) (cs : List Char) :
    Option (List Char × ℕ) := do
  let r1 ← dropLit kw cs
  let r2 ← dropSpaces1 r1
  let (name, r3) ← word1 r2
  let r4 ← dropLit ['['] r3
  let (d, r5) ← digits1 r4
  let _ ← dropLit [']'] r5
  pure (name, natOfDigits d)

/-- Unanchored search: try the anchored matcher at every start position,
returning the first match, as `FindStringSubmatch` does. -/
def regSearch (kw : List Char) : List Char → Option (List Char × ℕ)
  | [] => none
  | c :: rest =>
    match matchRegDecl kw (c :: rest) with
    | some v => some v
    | none => regSearch kw rest

/-- `noiseRegex`: `^//\s*noise\s+(\w+)\s+q\[(\d+)\](?:\s+param=(P))?$`. -/
def matchNoise (line : List Char) :
    Option (List Char × ℕ × Option (List Char)) := do
  let r1 ← dropLit ['/', '/'] line
  let r2 ← dropLit "noise".toList (dropSpaces r1)
  let r3 ← dropSpaces1 r2
  let (ty, r4) ← word1 r3
  let r5 ← dropSpaces1 r4
  let (t, r6) ← qIdx r5
  match r6 with
  | [] => pure (ty, t, none)
  | _ => do
    let r7 ← dropSpaces1 r6
    let r8 ← dropLit "param=".toList r7
    let (p, r9) ← matchParamPattern r8
    if r9 = [] then pure (ty, t, some p) else none

/-! ### The decoder proper -/

/-- `strconv.Atoi` on a full token. -/
def atoi (s : List Char) : Option ℤ :=
  let digitsAll : List Char → Option ℤ := fun d =>
    if d ≠ [] ∧ d.all isDigitChar then some (natOfDigits d : ℤ) else none
  match s with
  | '-' :: r => (digitsAll r).map (fun n => -n)
  | '+' :: r => digitsAll r
  | _ => digitsAll s

/-- Uppercase a word, as `strings.ToUpper` on the captured gate names. -/
def upperStr (w : List Char) : String := String.mk (w.map Char.toUpper)

/-- `strings.TrimSuffix`. -/
def trimSuffix (l suf : List Char) : List Char :=
  if suf.isSuffixOf l then l.take (l.length - suf.length) else l

/-- The `resolveCBit` closure of `ParseQASM`: resolve a named classical
register reference to a flat bit index via the creg map, falling back to
the numeric suffix of `c<N>` names, and to 0. -/
def resolveCBit (cregMap : List (String × ℤ)) (regName : String)
    (bitIdx : Option (List Char)) : ℤ :=
  match cregMap.find? (fun p => p.1 == regName) with
  | none =>
    if ['c'].isPrefixOf regName.toList then
      match atoi (regName.toList.drop 1) with
      | some idx => idx
      | none => 0
    else 0
  | some p =>
    match bitIdx with
    | some ds =>
      if ds ≠ [] then p.2 + (match atoi ds with | some v => v | none => 0)
      else p.2
    | none => p.2

/-- Lookup in the `lastGateOnQubit` map. -/
def lookupLast (m : List (ℤ × String)) (q : ℤ) : Option String :=
  (m.find? (fun p => p.1 == q)).map (fun p => p.2)

/-- Update the `lastGateOnQubit` map. -/
def updateLast (m : List (ℤ × String)) (q : ℤ) (id : String) : List (ℤ × String) :=
  if m.any (fun p => p.1 == q) then
    m.map (fun p => if p.1 == q then (q, id) else p)
  else m ++ [(q, id)]

/-- The dependency set collected from `lastGateOnQubit` over the used
qubits (a Go set; modelled deduplicated in first-seen order). -/
def depsFor (m : List (ℤ × String)) (qubits : List ℤ) : List String :=
  (qubits.filterMap (lookupLast m)).eraseDups

/-- `parseGateLine` (the DAG decoder): try the statement patterns in the
source's priority order; a `measure` line looks one raw line ahead and
fuses with a conditional gate on the same resolved classical bit into an
MCX node, reporting that the lookahead line was consumed. -/
def parseGateLine (cregMap : List (String × ℤ)) (line : List Char)
    (next? : Option (List Char)) : Option DAGNode × Bool :=
  match matchReset line with
  | some target =>
    (some ⟨"", "RESET", (target : ℤ), -1, [], -1, 0, [], false, true, -1, false, "", []⟩,
      false)
  | none =>
  if matchBarrier line then
    (some ⟨"", "BARRIER", -1, -1, [], -1, 0, [], false, false, -1, false, "", []⟩, false)
  else
  match matchMeasure line with
  | some (source, regName, bitDigits) =>
    let cbit := resolveCBit cregMap (String.mk regName) (some bitDigits)
    let measureNode : DAGNode :=
      ⟨"", "MEASURE", (source : ℤ), -1, [], -1, 0, [], false, false, -1, false, "", []⟩
    (match next? with
     | some nextLine =>
       match matchIf (trimChars nextLine) with
       | some (reg2, bit2, _value, _gate, target) =>
         if resolveCBit cregMap (String.mk reg2) bit2 = cbit then
           (some ⟨"", "MCX", (target : ℤ), -1, [], (source : ℤ), 0, [], false, false,
             -1, false, "", []⟩, true)
         else (some measureNode, false)
       | none => (some measureNode, false)
     | none => (some measureNode, false))
  | none =>
  match matchIfParam line with
  | some (reg, bit, _value, gateWord, param, target) =>
    let cbit := resolveCBit cregMap (String.mk reg) bit
    let p := (parseParamExprChars param).getD 0
    (some ⟨"", upperStr gateWord, (target : ℤ), -1, [], -1, 0, [p], false, false,
      cbit, false, "", []⟩, false)
  | none =>
  match matchIf line with
  | some (reg, bit, _value, gateWord, target) =>
    let cbit := resolveCBit cregMap (String.mk reg) bit
    (some ⟨"", upperStr gateWord, (target : ℤ), -1, [], -1, 0, [], false, false,
      cbit, false, "", []⟩, false)
  | none =>
  match matchThreeQubit line with
  | some (w, q1, q2, q3) =>
    (some ⟨"", upperStr w, (q3 : ℤ), -1, [(q1 : ℤ), (q2 : ℤ)], -1, 0, [], false, false,
      -1, false, "", []⟩, false)
  | none =>
  match matchTwoQubitParam line with
  | some (w, param, q1, q2) =>
    let p := (parseParamExprChars param).getD 0
    (some ⟨"", upperStr w, (q2 : ℤ), (q1 : ℤ), [], -1, 0, [p], false, false,
      -1, false, "", []⟩, false)
  | none =>
  match matchTwoQubit line with
  | some (w, q1, q2) =>
    (some ⟨"", upperStr w, (q2 : ℤ), (q1 : ℤ), [], -1, 0, [], false, false,
      -1, false, "", []⟩, false)
  | none =>
  match matchSingleGateParam line with
  | some (w, paramsStr, target) =>
    let params := (splitOnComma paramsStr).filterMap
      (fun pStr => parseParamExprChars (trimChars pStr))
    (some ⟨"", upperStr w, (target : ℤ), -1, [], -1, 0, params, false, false,
      -1, false, "", []⟩, false)
  | none =>
  match matchSingleGate line with
  | some (w, target) =>
    let gateType0 := w.map Char.toUpper
    let dg1 : Bool := ['D', 'G'].isSuffixOf gateType0 || ['d', 'g'].isSuffixOf gateType0
    let gateType1 := if dg1 then trimSuffix (trimSuffix gateType0 ['D', 'G']) ['d', 'g']
      else gateType0
    let baseGate0 := gateType1
    let sqPre : Bool := ['S', 'X'].isPrefixOf gateType1 || ['S', 'Y'].isPrefixOf gateType1 ||
      ['S', 'Z'].isPrefixOf gateType1
    let dg2 : Bool := sqPre &&
      (['D', 'G'].isSuffixOf gateType1 || ['d', 'g'].isSuffixOf gateType1)
    let baseGate := if sqPre then
        (if dg2 then trimSuffix (trimSuffix gateType1 ['D', 'G']) ['d', 'g'] else gateType1)
      else baseGate0
    (some ⟨"", String.mk baseGate, (target : ℤ), -1, [], -1, 0, [], dg1 || dg2, false,
      -1, false, "", []⟩, false)
  | none => (none, false)

/-- `getQubitsUsed` (the helper closure in `ParseQASM`). -/
def getQubitsUsed (node : DAGNode) : List ℤ :=
  [node.Target] ++ (if 0 ≤ node.Control then [node.Control] else []) ++
    node.Controls ++ (if 0 ≤ node.MeasureSource then [node.MeasureSource] else [])

/-- `parseNoiseLine`: add a NOISE node at the given step (its
`ClassicalControl` is left at the Go zero value 0 by the source). -/
def parseNoiseLine (dag : CircuitDAG) (noiseType : List Char) (target : ℕ)
    (param? : Option (List Char)) (step : ℤ) (lastGateOnQubit : List (ℤ × String)) :
    CircuitDAG × List (ℤ × String) :=
  let params : List ℚ :=
    match param? with
    | some p =>
      match parseParamExprChars p with
      | some v => [v]
      | none => []
    | none => []
  let deps :=
    match lookupLast lastGateOnQubit (target : ℤ) with
    | some id => [id]
    | none => []
  let node : DAGNode := ⟨generateNodeID "NOISE" (target : ℤ) step, "NOISE",
    (target : ℤ), -1, [], -1, step, params, false, false, 0, true,
    String.mk noiseType, deps⟩
  (dag.AddNode node, updateLast lastGateOnQubit (target : ℤ) node.ID)

/-- `strings.Split(qasm, "\n")`. -/
def splitLines : List Char → List (List Char)
  | [] => [[]]
  | c :: rest =>
    match splitLines rest with
    | [] => [[c]]
    | g :: gs => if c = '\n' then [] :: g :: gs else (c :: g) :: gs

/-- The line loop of `ParseQASM`, threading the decoder state: the DAG
under construction, the classical-register map and offset, the last gate
per qubit, and the current parallel step with its occupied qubits. -/
def parseQASMLoop : List (List Char) → CircuitDAG → List (String × ℤ) → ℤ →
    List (ℤ × String) → List ℤ → ℤ → CircuitDAG
  | [], dag, _, _, _, _, _ => dag
  | rawLine :: rest, dag, cregMap, cregOffset, lastG, curQ, curStep =>
    let line := trimChars rawLine
    if line = [] then
      parseQASMLoop rest dag cregMap cregOffset lastG curQ curStep
    else if ['/', '/'].isPrefixOf line then
      match matchNoise line with
      | some (ntype, target, param?) =>
        let step1 := if (target : ℤ) ∈ curQ then curStep + 1 else curStep
        let (dag2, lastG2) := parseNoiseLine dag ntype target param? step1 lastG
        parseQASMLoop rest dag2 cregMap cregOffset lastG2 [] (step1 + 1)
      | none => parseQASMLoop rest dag cregMap cregOffset lastG curQ curStep
    else if "OPENQASM".toList.isPrefixOf line ∨ "include".toList.isPrefixOf line then
      parseQASMLoop rest dag cregMap cregOffset lastG curQ curStep
    else if "qreg".toList.isPrefixOf line then
      match regSearch "qreg".toList line with
      | some (_, n) =>
        parseQASMLoop rest { dag with NumQubits := (n : ℤ) } cregMap cregOffset
          lastG curQ curStep
      | none => parseQASMLoop rest dag cregMap cregOffset lastG curQ curStep
    else if "creg".toList.isPrefixOf line then
      match regSearch "creg".toList line with
      | some (regName, regSize) =>
        parseQASMLoop rest dag (updateCreg cregMap (String.mk regName) cregOffset)
          (cregOffset + (regSize : ℤ)) lastG curQ curStep
      | none => parseQASMLoop rest dag cregMap cregOffset lastG curQ curStep
    else
      match parseGateLine cregMap line rest.head? with
      | (none, _) => parseQASMLoop rest dag cregMap cregOffset lastG curQ curStep
      | (some node, consumed) =>
        let qubitsUsed := getQubitsUsed node
        let stepped : DAGNode × ℤ × List ℤ :=
          if node.Ty = "BARRIER" then
            let s1 := if curQ ≠ [] then curStep + 1 else curStep
            ({ node with Step := s1 }, s1 + 1, [])
          else
            let conflict := qubitsUsed.any (fun q => q ∈ curQ)
            let multi : Bool := decide (0 ≤ node.Control) || !node.Controls.isEmpty ||
              decide (0 ≤ node.MeasureSource)
            let s1 := if multi then (if curQ ≠ [] then curStep + 1 else curStep)
              else if conflict then curStep + 1 else curStep
            let q1 : List ℤ := if multi then (if curQ ≠ [] then [] else curQ)
              else if conflict then [] else curQ
            ({ node with Step := s1 }, s1, q1 ++ qubitsUsed)
        let node2 := stepped.1
        let node3 := { node2 with
          Dependencies := node2.Dependencies ++ depsFor lastG qubitsUsed,
          ID := generateNodeID node2.Ty node2.Target node2.Step }
        let dag2 := dag.AddNode node3
        let lastG2 := qubitsUsed.foldl (fun m q => updateLast m q node3.ID) lastG
        if consumed then
          match rest with
          | [] => dag2
          | _ :: rest2 =>
            parseQASMLoop rest2 dag2 cregMap cregOffset lastG2 stepped.2.2 stepped.2.1
        else
          parseQASMLoop rest dag2 cregMap cregOffset lastG2 stepped.2.2 stepped.2.1
  where
    updateCreg (m : List (String × ℤ)) (name : String) (off : ℤ) : List (String × ℤ) :=
      if m.any (fun p => p.1 == name) then
        m.map (fun p => if p.1 == name then (name, off) else p)
      else m ++ [(name, off)]

/-- `ParseQASM` (the DAG decoder entry point): reset the node store, then
run the line loop from an empty scheduling state. -/
def CircuitDAG.ParseQASM (dag : CircuitDAG) (qasm : String) : CircuitDAG :=
  parseQASMLoop (splitLines qasm.toList) { dag with Nodes := [] } [] 0 [] [] 0

/-! ### Theorems about the DAG editor and the decoder -/

/-- C3 (bug exhibit): after adding a barrier at step 0 to the empty DAG,
the only node is a BARRIER node at step 0, yet `CanPlaceGateAt 0 [0]`
returns `true`. The barrier branch of `CanPlaceGateAt` is unreachable:
barrier nodes carry target `-1` and an empty control list, so `GetNodeAt`
never returns them for any actual qubit index, contradicting the
documented behaviour that a qubit occupied by a barrier at the step
rejects placement. -/
theorem C3_barrier_check_unreachable :
    ((NewCircuitDAG.AddBarrier 0).Nodes.map (fun n => (n.Ty, n.Step))
        = [("BARRIER", 0)]) ∧
    (NewCircuitDAG.AddBarrier 0).CanPlaceGateAt 0 [0] = true := by decide

/-- C4: decoding `h q[0];` / `h q[1];` / `cx q[0],q[1];` (one statement per
line) yields the two H nodes on one shared step and the CX node (control 0,
target 1) on a strictly later step. -/
theorem C4_parallel_scheduling :
    ∃ s t : ℤ, s < t ∧
      ((NewCircuitDAG.ParseQASM "h q[0];\nh q[1];\ncx q[0],q[1];").Nodes.map
        (fun n => (n.Ty, n.Control, n.Target, n.Step))) =
      [("H", -1, 0, s), ("H", -1, 1, s), ("CX", 0, 1, t)] :=
  ⟨0, 1, by decide!⟩

/-- A `measure` line starts with the character `m`, read off the first
literal of the measure pattern. -/
lemma matchMeasure_head {line : List Char} {v : ℕ × List Char × List Char}
    (h : matchMeasure line = some v) : ∃ r, line = 'm' :: r := by
  match line with
  | [] => simp [show matchMeasure ([] : List Char) = none from rfl] at h
  | c :: rest =>
    refine ⟨rest, ?_⟩
    by_cases hc : c = 'm'
    · rw [hc]
    · exfalso
      have h1 : dropLit "measure".toList (c :: rest)
          = if c = 'm' then dropLit "easure".toList rest else none := rfl
      have h2 : matchMeasure (c :: rest) = none := by
        unfold matchMeasure
        rw [h1, if_neg hc]
        rfl
      rw [h2] at h
      exact Option.noConfusion h

/-- The reset pattern fails on a line starting with `m`. -/
lemma matchReset_on_m (r : List Char) : matchReset ('m' :: r) = none := rfl

/-- The barrier pattern fails on a line starting with `m`. -/
lemma matchBarrier_on_m (r : List Char) : matchBarrier ('m' :: r) = false := rfl

/-- C5 (amended): the fusion rule the decoder actually implements. Whenever
the current line matches the measure pattern and a lookahead line exists,
the decoder fuses into a consumed MCX node exactly when the trimmed
lookahead line matches the conditional pattern and its resolved classical
bit equals the resolved bit of the measurement — with the conditional's
gate word and compared value ignored entirely (both are discarded by the
match), rather than fusion being restricted to `x` gates compared
against 1. -/
theorem C5_measure_fusion_rule (cregMap : List (String × ℤ)) (line : List Char)
    (next : List Char) (source : ℕ) (regName bitDigits : List Char)
    (h : matchMeasure line = some (source, regName, bitDigits)) :
    parseGateLine cregMap line (some next) =
      match matchIf (trimChars next) with
      | some (reg2, bit2, _value, _gate, target) =>
        if resolveCBit cregMap (String.mk reg2) bit2
            = resolveCBit cregMap (String.mk regName) (some bitDigits) then
          (some ⟨"", "MCX", (target : ℤ), -1, [], (source : ℤ), 0, [], false, false,
            -1, false, "", []⟩, true)
        else
          (some ⟨"", "MEASURE", (source : ℤ), -1, [], -1, 0, [], false, false, -1,
            false, "", []⟩, false)
      | none =>
        (some ⟨"", "MEASURE", (source : ℤ), -1, [], -1, 0, [], false, false, -1,
          false, "", []⟩, false) := by
  obtain ⟨r, rfl⟩ := matchMeasure_head h
  simp only [parseGateLine, matchReset_on_m, matchBarrier_on_m, h, Bool.false_eq_true,
    if_false]

/-- Witness for C5 at the concrete pair
`measure q[0] -> c[0];` / `if (c[0]==1) x q[1];`: the hypothesis holds and
the fusion rule produces the consumed MCX node. -/
theorem C5_measure_fusion_rule_witness :
    matchMeasure "measure q[0] -> c[0];".toList = some (0, ['c'], ['0']) ∧
    parseGateLine [] "measure q[0] -> c[0];".toList
        (some "if (c[0]==1) x q[1];".toList) =
      match matchIf (trimChars "if (c[0]==1) x q[1];".toList) with
      | some (reg2, bit2, _value, _gate, target) =>
        if resolveCBit [] (String.mk reg2) bit2
            = resolveCBit [] (String.mk ['c']) (some ['0']) then
          (some ⟨"", "MCX", (target : ℤ), -1, [], ((0 : ℕ) : ℤ), 0, [], false, false,
            -1, false, "", []⟩, true)
        else
          (some ⟨"", "MEASURE", ((0 : ℕ) : ℤ), -1, [], -1, 0, [], false, false, -1,
            false, "", []⟩, false)
      | none =>
        (some ⟨"", "MEASURE", ((0 : ℕ) : ℤ), -1, [], -1, 0, [], false, false, -1,
          false, "", []⟩, false) :=
  ⟨by decide,
    C5_measure_fusion_rule [] "measure q[0] -> c[0];".toList
      "if (c[0]==1) x q[1];".toList 0 ['c'] ['0'] (by decide)⟩

/-- C5 (counterexample to "fusion only for `x` compared against 1 on the
matching bit"): after `measure q[0] -> c[0];`, a conditional applying `z`
(not `x`) is fused into a consumed MCX node; a conditional comparing
against 2 (not 1) is fused; and with no creg declarations a conditional on
`c[7]` (a different bit index) is fused, because both references resolve to
bit 0. -/
theorem C5_fusion_not_only_x_cex :
    (parseGateLine [] "measure q[0] -> c[0];".toList
        (some "if (c[0]==1) z q[1];".toList)).2 = true ∧
    (parseGateLine [] "measure q[0] -> c[0];".toList
        (some "if (c[0]==1) z q[1];".toList)).1 =
      some ⟨"", "MCX", 1, -1, [], 0, 0, [], false, false, -1, false, "", []⟩ ∧
    (parseGateLine [] "measure q[0] -> c[0];".toList
        (some "if (c[0]==2) x q[1];".toList)).2 = true ∧
    (parseGateLine [] "measure q[0] -> c[0];".toList
        (some "if (c[7]==1) x q[1];".toList)).2 = true := by decide

end QDeck
